import Mathlib

/-!
AutoFuzzy: a shallow embedding of the fuzzy-inference engine of `AutoFuzzy.h` / `AutoFuzzy.cpp`
and theorems about it.

Conventions of the embedding:

* `float` is the field `ℚ` of exact rationals; where a NaN argument matters, the crisp
  value is a `FloatValue` (a number or NaN).
* A fixed-capacity C array is a total function on indices (`Nat → α`); the slots at and
  beyond the associated counter hold whatever the memory holds, exactly as in the source.
* The `uint8_t` counters and indices are natural numbers; every increment in the source is
  guarded by a capacity test, so no counter wraps.
* A C string is the list of its characters before the terminator; `strcmp(x, y) == 0` is
  equality of these lists and `strncpy(dst, src, 19); dst[19] = 0` keeps the first 19.
* The Arduino random source is an explicit oracle threaded through `autoOptimize`
  together with the number of draws made so far.
-/

namespace AutoFuzzy

/-- Capacity of the variable registry: `MAX_VARS` is defined as 10 in AutoFuzzy.h. -/
def MAX_VARS : Nat := 10

/-- Capacity of a variable: `MAX_MEMBERSHIP_FUNCTIONS` is defined as 5 in AutoFuzzy.h. -/
def MAX_MEMBERSHIP_FUNCTIONS : Nat := 5

/-- Capacity of the rule base: `MAX_RULES` is defined as 50 in AutoFuzzy.h. -/
def MAX_RULES : Nat := 50

/-- A C string: its characters up to the terminating zero byte. -/
abbrev Name := List Char

/-- Source: `struct MembershipFunction { char name[20]; uint8_t type; float params[4]; }`;
`type` is 0 for triangular and 1 for trapezoidal. -/
structure MembershipFunction where
  name : Name
  type : Nat
  params : Nat → ℚ

/-- Source: `struct Variable { char name[20]; bool isInput; float min; float max;
MembershipFunction mfs[MAX_MEMBERSHIP_FUNCTIONS]; uint8_t mfCount; }` -/
structure Variable where
  name : Name
  isInput : Bool
  min : ℚ
  max : ℚ
  mfs : Nat → MembershipFunction
  mfCount : Nat

/-- Source: `struct Rule { uint8_t ifVar; uint8_t ifMF; uint8_t thenVar; uint8_t thenMF; }` -/
structure Rule where
  ifVar : Nat
  ifMF : Nat
  thenVar : Nat
  thenMF : Nat
deriving DecidableEq

end AutoFuzzy

/-- The private data of `class AutoFuzzy`:
`Variable vars[MAX_VARS]; uint8_t varCount; Rule rules[MAX_RULES]; uint8_t ruleCount;` -/
structure AutoFuzzy where
  vars : Nat → AutoFuzzy.Variable
  varCount : Nat
  rules : Nat → AutoFuzzy.Rule
  ruleCount : Nat

namespace AutoFuzzy

/-- The constructor `AutoFuzzy::AutoFuzzy()`: both counters are set to zero, the arrays
keep the contents `mem` of the memory the object is built in. -/
def construct (mem : AutoFuzzy) : AutoFuzzy :=
  { mem with varCount := 0, ruleCount := 0 }

/-- Source: `AutoFuzzy::addInput`. -/
def addInput (s : AutoFuzzy) (name : Name) (min max : ℚ) : AutoFuzzy :=
  if s.varCount ≥ MAX_VARS then s
  else
    { s with
      vars := Function.update s.vars s.varCount
        { s.vars s.varCount with
          name := name.take 19, isInput := true, min := min, max := max, mfCount := 0 }
      varCount := s.varCount + 1 }

/-- Source: `AutoFuzzy::addOutput`. -/
def addOutput (s : AutoFuzzy) (name : Name) (min max : ℚ) : AutoFuzzy :=
  if s.varCount ≥ MAX_VARS then s
  else
    { s with
      vars := Function.update s.vars s.varCount
        { s.vars s.varCount with
          name := name.take 19, isInput := false, min := min, max := max, mfCount := 0 }
      varCount := s.varCount + 1 }

/-- The "Find variable" loop of `addTriangularMF` / `addTrapezoidalMF`:
`for (i = 0; i < varCount; i++) if (strcmp(vars[i].name, varName) == 0) { varIndex = i; break; }`
with `none` for the initial `-1`. -/
def varIndex (s : AutoFuzzy) (varName : Name) : Option Nat :=
  (List.range s.varCount).find? (fun i => decide ((s.vars i).name = varName))

/-- Source: `AutoFuzzy::addTriangularMF`; `params[3]` is not written. -/
def addTriangularMF (s : AutoFuzzy) (varName mfName : Name) (a b c : ℚ) : AutoFuzzy :=
  match varIndex s varName with
  | none => s
  | some i =>
    if (s.vars i).mfCount ≥ MAX_MEMBERSHIP_FUNCTIONS then s
    else
      let v := s.vars i
      let mf := v.mfs v.mfCount
      let mf1 : MembershipFunction :=
        { mf with
          name := mfName.take 19, type := 0,
          params := Function.update (Function.update (Function.update mf.params 0 a) 1 b) 2 c }
      { s with
        vars := Function.update s.vars i
          { v with mfs := Function.update v.mfs v.mfCount mf1, mfCount := v.mfCount + 1 } }

/-- Source: `AutoFuzzy::addTrapezoidalMF`. -/
def addTrapezoidalMF (s : AutoFuzzy) (varName mfName : Name) (a b c d : ℚ) : AutoFuzzy :=
  match varIndex s varName with
  | none => s
  | some i =>
    if (s.vars i).mfCount ≥ MAX_MEMBERSHIP_FUNCTIONS then s
    else
      let v := s.vars i
      let mf := v.mfs v.mfCount
      let mf1 : MembershipFunction :=
        { mf with
          name := mfName.take 19, type := 1,
          params := Function.update
            (Function.update (Function.update (Function.update mf.params 0 a) 1 b) 2 c) 3 d }
      { s with
        vars := Function.update s.vars i
          { v with mfs := Function.update v.mfs v.mfCount mf1, mfCount := v.mfCount + 1 } }

/-- The inner loops of `addRule`:
`for (j = 0; j < vars[i].mfCount; j++) if (strcmp(vars[i].mfs[j].name, mf) == 0) { idx = j; break; }`;
`none` when the loop ends without a match (the index variable is then left as it was). -/
def mfIndex (v : Variable) (mfName : Name) : Option Nat :=
  (List.range v.mfCount).find? (fun j => decide ((v.mfs j).name = mfName))

/-- The four local index variables of `addRule`, `none` standing for `-1`. -/
structure RuleScan where
  ifVarIndex : Option Nat
  thenVarIndex : Option Nat
  ifMFIndex : Option Nat
  thenMFIndex : Option Nat
deriving DecidableEq

/-- One iteration (index `i`) of the outer loop of `addRule`. There is no `break` in it. -/
def addRuleStep (s : AutoFuzzy) (ifVar ifMF thenVar thenMF : Name)
    (st : RuleScan) (i : Nat) : RuleScan :=
  let st1 : RuleScan :=
    if (s.vars i).name = ifVar then
      { st with
        ifVarIndex := some i
        ifMFIndex :=
          match mfIndex (s.vars i) ifMF with
          | some j => some j
          | none => st.ifMFIndex }
    else st
  if (s.vars i).name = thenVar then
    { st1 with
      thenVarIndex := some i
      thenMFIndex :=
        match mfIndex (s.vars i) thenMF with
        | some j => some j
        | none => st1.thenMFIndex }
  else st1

/-- The outer loop of `addRule`, from all four indices `-1`. -/
def addRuleScan (s : AutoFuzzy) (ifVar ifMF thenVar thenMF : Name) : RuleScan :=
  (List.range s.varCount).foldl (addRuleStep s ifVar ifMF thenVar thenMF)
    ⟨none, none, none, none⟩

/-- Source: `AutoFuzzy::addRule`. -/
def addRule (s : AutoFuzzy) (ifVar ifMF thenVar thenMF : Name) : AutoFuzzy :=
  if s.ruleCount ≥ MAX_RULES then s
  else
    let st := addRuleScan s ifVar ifMF thenVar thenMF
    match st.ifVarIndex, st.thenVarIndex, st.ifMFIndex, st.thenMFIndex with
    | some iv, some tv, some im, some tm =>
      { s with
        rules := Function.update s.rules s.ruleCount ⟨iv, im, tv, tm⟩
        ruleCount := s.ruleCount + 1 }
    | _, _, _, _ => s

/-- Source: `AutoFuzzy::calculateMembership`. -/
def calculateMembership (mf : MembershipFunction) (value : ℚ) : ℚ :=
  if mf.type = 0 then
    if value ≤ mf.params 0 ∨ value ≥ mf.params 2 then 0
    else if value ≤ mf.params 1 then
      (value - mf.params 0) / (mf.params 1 - mf.params 0)
    else (mf.params 2 - value) / (mf.params 2 - mf.params 1)
  else
    if value ≤ mf.params 0 ∨ value ≥ mf.params 3 then 0
    else if value ≥ mf.params 1 ∧ value ≤ mf.params 2 then 1
    else if value < mf.params 1 then
      (value - mf.params 0) / (mf.params 1 - mf.params 0)
    else (mf.params 3 - value) / (mf.params 3 - mf.params 2)

/-- The local `outputValue` of `evaluate`: the center of the consequent function. -/
def outputValue (outMF : MembershipFunction) : ℚ :=
  if outMF.type = 0 then outMF.params 1
  else (outMF.params 1 + outMF.params 2) / 2

/-- The local `inputMembership` of `evaluate` for rule `i`. -/
def inputMembership (s : AutoFuzzy) (inputs : Nat → ℚ) (i : Nat) : ℚ :=
  calculateMembership ((s.vars (s.rules i).ifVar).mfs (s.rules i).ifMF)
    (inputs (s.rules i).ifVar)

/-- One iteration (rule `i`) of the loop of `evaluate` on the pair
`(outputSum, weightSum)`. -/
def evaluateStep (s : AutoFuzzy) (inputs : Nat → ℚ) (acc : ℚ × ℚ) (i : Nat) : ℚ × ℚ :=
  if inputMembership s inputs i > 0 then
    (acc.1 + outputValue ((s.vars (s.rules i).thenVar).mfs (s.rules i).thenMF)
        * inputMembership s inputs i,
     acc.2 + inputMembership s inputs i)
  else acc

/-- Source: `AutoFuzzy::evaluate`; `inputs` is the array behind the `float*`. -/
def evaluate (s : AutoFuzzy) (inputs : Nat → ℚ) : ℚ :=
  let acc := (List.range s.ruleCount).foldl (evaluateStep s inputs) (0, 0)
  if acc.2 > 0 then acc.1 / acc.2 else 0

/-- Source: `const float mutationRate = 0.1;` (as an exact rational). -/
def mutationRate : ℚ := 1 / 10

/-- Source: `const float mutationRange = 0.1;` (as an exact rational). -/
def mutationRange : ℚ := 1 / 10

/-- Modelled from the spec: the clamp utility, `clamp(value, lo, hi)` bounded into
`[lo, hi]` inclusive. It is Arduino's `constrain`, which this repository uses but
does not define: `((amt) < (low) ? (low) : ((amt) > (high) ? (high) : (amt)))`. -/
def constrain (amt low high : ℚ) : ℚ :=
  if amt < low then low else if amt > high then high else amt

/-- The external uniform random source: `rand n lo hi` is the outcome of the `n`-th draw
made by `autoOptimize`, requested over the range from `lo` to `hi`. `random(100)` is the
request `0 100`. No property of the outcomes is assumed. -/
abbrev RandomSource := Nat → Int → Int → Int

/-- Conversion of a `float` argument to the `long` parameter of `random`: truncation
towards zero. -/
def toLong (q : ℚ) : Int :=
  if 0 ≤ q then Int.floor q else Int.ceil q

/-- Source: `int paramCount = mf.type == 0 ? 3 : 4;` -/
def paramCount (mf : MembershipFunction) : Nat :=
  if mf.type = 0 then 3 else 4

/-- One iteration (index `k`) of the mutation loop of `autoOptimize` on the function `mf`
of a variable with bounds `vmin`, `vmax`; the second component counts the draws made. -/
def mutateStep (rand : RandomSource) (vmin vmax : ℚ) (st : MembershipFunction × Nat)
    (k : Nat) : MembershipFunction × Nat :=
  let range := (vmax - vmin) * mutationRange
  let p := st.1.params k
    + (rand st.2 (toLong (-range * 1000)) (toLong (range * 1000)) : ℚ) / 1000
  ({ st.1 with params := Function.update st.1.params k (constrain p vmin vmax) }, st.2 + 1)

/-- One iteration (index `k`) of the ordering loop of `autoOptimize`. -/
def orderStep (mf : MembershipFunction) (k : Nat) : MembershipFunction :=
  if mf.params k < mf.params (k - 1) then
    { mf with params := Function.update mf.params k (mf.params (k - 1)) }
  else mf

/-- The body of `if (random(100) / 100.0 < mutationRate)` in `autoOptimize`: the mutation
loop `k = 0 .. paramCount - 1` followed by the ordering loop `k = 1 .. paramCount - 1`. -/
def mutate (rand : RandomSource) (vmin vmax : ℚ) (mf : MembershipFunction) (n : Nat) :
    MembershipFunction × Nat :=
  let st := (List.range (paramCount mf)).foldl (mutateStep rand vmin vmax) (mf, n)
  ((List.range' 1 (paramCount mf - 1)).foldl orderStep st.1, st.2)

/-- The body of the loop over `j` in `autoOptimize` for `vars[i].mfs[j]`, on the engine
paired with the number of draws made so far. The selection test
`random(100) / 100.0 < mutationRate` is taken over exact rationals. -/
def optimizeMF (rand : RandomSource) (i : Nat) (st : AutoFuzzy × Nat) (j : Nat) :
    AutoFuzzy × Nat :=
  if (rand st.2 0 100 : ℚ) / 100 < mutationRate then
    let v := st.1.vars i
    let r := mutate rand v.min v.max (v.mfs j) (st.2 + 1)
    ({ st.1 with vars := Function.update st.1.vars i { v with mfs := Function.update v.mfs j r.1 } },
     r.2)
  else (st.1, st.2 + 1)

/-- The loop `for (j = 0; j < vars[i].mfCount; j++)` of `autoOptimize`; its body changes
no `mfCount`, so the bound is the one at loop entry. -/
def optimizeVar (rand : RandomSource) (st : AutoFuzzy × Nat) (i : Nat) : AutoFuzzy × Nat :=
  (List.range (st.1.vars i).mfCount).foldl (optimizeMF rand i) st

/-- The loop `for (i = 0; i < varCount; i++)` of `autoOptimize`, one whole iteration
`iter`; its body does not change `varCount`. -/
def optimizePass (rand : RandomSource) (st : AutoFuzzy × Nat) (_iter : Nat) :
    AutoFuzzy × Nat :=
  (List.range st.1.varCount).foldl (optimizeVar rand) st

/-- Source: `AutoFuzzy::autoOptimize`: `iterations` passes (none when `iterations ≤ 0`), the
draws numbered from 0. -/
def autoOptimize (s : AutoFuzzy) (iterations : Int) (rand : RandomSource) : AutoFuzzy :=
  ((List.range iterations.toNat).foldl (optimizePass rand) (s, 0)).1

/-! ## Notions used by the statements -/

/-- The center of the consequent function of rule `i`: `params[1]` for a triangular
function, `(params[1] + params[2]) / 2` for a trapezoidal one. It is the `outputValue`
that `evaluate` computes for the rule. -/
def consequentCenter (s : AutoFuzzy) (i : Nat) : ℚ :=
  outputValue ((s.vars (s.rules i).thenVar).mfs (s.rules i).thenMF)

/-- Well-formedness of one membership function inside a variable with bounds `vmin`,
`vmax`: its first `paramCount` params lie in `[vmin, vmax]` and are non-decreasing by
index. -/
def ParamsWellFormed (vmin vmax : ℚ) (mf : MembershipFunction) : Prop :=
  (∀ k, k < paramCount mf → vmin ≤ mf.params k ∧ mf.params k ≤ vmax) ∧
  (∀ k, k < paramCount mf - 1 → mf.params k ≤ mf.params (k + 1))

instance instDecidableParamsWellFormed (vmin vmax : ℚ) (mf : MembershipFunction) :
    Decidable (ParamsWellFormed vmin vmax mf) := by
  unfold ParamsWellFormed; infer_instance

/-- Every registered membership function of every registered variable is well-formed
with respect to the bounds of its owning variable. -/
def WellFormed (s : AutoFuzzy) : Prop :=
  ∀ i, i < s.varCount → ∀ j, j < (s.vars i).mfCount →
    ParamsWellFormed (s.vars i).min (s.vars i).max ((s.vars i).mfs j)

instance instDecidableWellFormed (s : AutoFuzzy) : Decidable (WellFormed s) := by
  unfold WellFormed; infer_instance

/-- The engine `t` differs from `s` at most in membership-function params. -/
def SameLayout (s t : AutoFuzzy) : Prop :=
  t.varCount = s.varCount ∧ t.ruleCount = s.ruleCount ∧ t.rules = s.rules ∧
  ∀ a, (t.vars a).name = (s.vars a).name ∧ (t.vars a).isInput = (s.vars a).isInput ∧
    (t.vars a).min = (s.vars a).min ∧ (t.vars a).max = (s.vars a).max ∧
    (t.vars a).mfCount = (s.vars a).mfCount ∧
    ∀ b, ((t.vars a).mfs b).name = ((s.vars a).mfs b).name ∧
      ((t.vars a).mfs b).type = ((s.vars a).mfs b).type

/-- A registered variable whose name repeats the name of an earlier registered variable
holds no membership function. -/
def NoShadowedMF (s : AutoFuzzy) : Prop :=
  ∀ i, i < s.varCount → ∀ k, k < i → (s.vars k).name = (s.vars i).name →
    (s.vars i).mfCount = 0

instance instDecidableNoShadowedMF (s : AutoFuzzy) : Decidable (NoShadowedMF s) := by
  unfold NoShadowedMF; infer_instance

/-- The engine states a caller can produce: the constructor followed by any sequence of
the public state-changing operations (`evaluate` changes no state). -/
inductive Reachable : AutoFuzzy → Prop
  | construct (mem : AutoFuzzy) : Reachable (construct mem)
  | addInput (s : AutoFuzzy) (name : Name) (min max : ℚ) :
      Reachable s → Reachable (addInput s name min max)
  | addOutput (s : AutoFuzzy) (name : Name) (min max : ℚ) :
      Reachable s → Reachable (addOutput s name min max)
  | addTriangularMF (s : AutoFuzzy) (varName mfName : Name) (a b c : ℚ) :
      Reachable s → Reachable (addTriangularMF s varName mfName a b c)
  | addTrapezoidalMF (s : AutoFuzzy) (varName mfName : Name) (a b c d : ℚ) :
      Reachable s → Reachable (addTrapezoidalMF s varName mfName a b c d)
  | addRule (s : AutoFuzzy) (ifVar ifMF thenVar thenMF : Name) :
      Reachable s → Reachable (addRule s ifVar ifMF thenVar thenMF)
  | autoOptimize (s : AutoFuzzy) (iterations : Int) (rand : RandomSource) :
      Reachable s → Reachable (autoOptimize s iterations rand)

/-! ## Concrete data for the examples -/

/-- A triangular function with params `(a, b, c)`. -/
def triangular (a b c : ℚ) : MembershipFunction :=
  ⟨[], 0, fun k => [a, b, c].getD k 0⟩

/-- A trapezoidal function with params `(a, b, c, d)`. -/
def trapezoidal (a b c d : ℚ) : MembershipFunction :=
  ⟨[], 1, fun k => [a, b, c, d].getD k 0⟩

/-- Memory filled with zeros. -/
def blank : AutoFuzzy :=
  ⟨fun _ => ⟨[], false, 0, 0, fun _ => ⟨[], 0, fun _ => 0⟩, 0⟩, 0, fun _ => ⟨0, 0, 0, 0⟩, 0⟩

/-- The input array holding the values of `l`, zero beyond them. -/
def inputsOf (l : List ℚ) : Nat → ℚ := fun i => l.getD i 0

/-- The scenario of the specification: `Temperature` in `[0, 40]` with `Cold(0,0,20)` and
`Hot(20,40,40)`, `FanSpeed` in `[0, 100]` with `Low(0,0,50)` and `High(50,100,100)`, and
the rules `Cold -> Low`, `Hot -> High`. -/
def fanControl : AutoFuzzy :=
  let s := construct blank
  let s := addInput s "Temperature".toList 0 40
  let s := addTriangularMF s "Temperature".toList "Cold".toList 0 0 20
  let s := addTriangularMF s "Temperature".toList "Hot".toList 20 40 40
  let s := addOutput s "FanSpeed".toList 0 100
  let s := addTriangularMF s "FanSpeed".toList "Low".toList 0 0 50
  let s := addTriangularMF s "FanSpeed".toList "High".toList 50 100 100
  let s := addRule s "Temperature".toList "Cold".toList "FanSpeed".toList "Low".toList
  addRule s "Temperature".toList "Hot".toList "FanSpeed".toList "High".toList

/-- An engine in which the name `T` was registered twice: `Cold` is attached to the first
`T` (index 0), the second `T` (index 1) has no function, and `F` (index 2) has `Low`. -/
def twoNamedT : AutoFuzzy :=
  let s := construct blank
  let s := addInput s "T".toList 0 40
  let s := addInput s "T".toList 0 40
  let s := addTriangularMF s "T".toList "Cold".toList 0 0 20
  let s := addOutput s "F".toList 0 100
  addTriangularMF s "F".toList "Low".toList 0 0 50

/-- An engine state written down field by field: two variables named `T`, the first
(index 0) without functions, the second (index 1) holding `Cold`; `F` (index 2) holds
`Low`. No sequence of the public operations produces it. -/
def shadowedT : AutoFuzzy :=
  { vars := fun i =>
      if i = 0 then ⟨"T".toList, true, 0, 40, fun _ => triangular 0 0 0, 0⟩
      else if i = 1 then
        ⟨"T".toList, true, 0, 40,
          fun _ => { triangular 0 0 20 with name := "Cold".toList }, 1⟩
      else
        ⟨"F".toList, false, 0, 100,
          fun _ => { triangular 0 0 50 with name := "Low".toList }, 1⟩
    varCount := 3
    rules := fun _ => ⟨0, 0, 0, 0⟩
    ruleCount := 0 }

/-- A random source: the `n`-th draw over `lo .. hi` is `lo + (7 n + 3) mod (hi - lo)`. -/
def sampleRandom : RandomSource := fun n lo hi => lo + (7 * (n : Int) + 3) % (hi - lo)

/-! ## Notions used by the statements on registration, safety and frames -/

/-- The capacity invariant: no counter exceeds the size of its array. -/
def WithinCapacity (s : AutoFuzzy) : Prop :=
  s.varCount ≤ MAX_VARS ∧
  (∀ i, i < s.varCount → (s.vars i).mfCount ≤ MAX_MEMBERSHIP_FUNCTIONS) ∧
  s.ruleCount ≤ MAX_RULES

/-- Append-only step from `s` to `t`: every variable, membership function and rule stored
in `s` is stored in `t` at the same index with the same content, and no counter
decreases. -/
def Extends (s t : AutoFuzzy) : Prop :=
  s.varCount ≤ t.varCount ∧ s.ruleCount ≤ t.ruleCount ∧
  (∀ r, r < s.ruleCount → t.rules r = s.rules r) ∧
  ∀ i, i < s.varCount →
    (t.vars i).name = (s.vars i).name ∧ (t.vars i).isInput = (s.vars i).isInput ∧
    (t.vars i).min = (s.vars i).min ∧ (t.vars i).max = (s.vars i).max ∧
    (s.vars i).mfCount ≤ (t.vars i).mfCount ∧
    ∀ j, j < (s.vars i).mfCount → (t.vars i).mfs j = (s.vars i).mfs j

/-- The engine `t` is `s` with one membership function appended to variable `i`: the new
function sits at index `mfCount` of that variable, has the given name and type and the
params `ps` in order (slots beyond `ps` keep what the memory held), the variable's
`mfCount` grows by one, and nothing else differs. -/
def MFAppended (s t : AutoFuzzy) (i : Nat) (name : Name) (type : Nat) (ps : List ℚ) : Prop :=
  t.varCount = s.varCount ∧ t.ruleCount = s.ruleCount ∧ t.rules = s.rules ∧
  (∀ a, a ≠ i → t.vars a = s.vars a) ∧
  (t.vars i).name = (s.vars i).name ∧ (t.vars i).isInput = (s.vars i).isInput ∧
  (t.vars i).min = (s.vars i).min ∧ (t.vars i).max = (s.vars i).max ∧
  (t.vars i).mfCount = (s.vars i).mfCount + 1 ∧
  (∀ b, b ≠ (s.vars i).mfCount → (t.vars i).mfs b = (s.vars i).mfs b) ∧
  ((t.vars i).mfs (s.vars i).mfCount).name = name ∧
  ((t.vars i).mfs (s.vars i).mfCount).type = type ∧
  (∀ k, k < ps.length → ((t.vars i).mfs (s.vars i).mfCount).params k = ps.getD k 0) ∧
  (∀ k, ps.length ≤ k → ((t.vars i).mfs (s.vars i).mfCount).params k
    = ((s.vars i).mfs (s.vars i).mfCount).params k)

/-- Both sides of the rule `r` refer to a registered variable and to a registered
membership function of that same variable. -/
def RuleValid (s : AutoFuzzy) (r : Rule) : Prop :=
  r.ifVar < s.varCount ∧ r.thenVar < s.varCount ∧
  r.ifMF < (s.vars r.ifVar).mfCount ∧ r.thenMF < (s.vars r.thenVar).mfCount

instance instDecidableRuleValid (s : AutoFuzzy) (r : Rule) : Decidable (RuleValid s r) := by
  unfold RuleValid; infer_instance

/-- Every stored rule is valid. -/
def RulesValid (s : AutoFuzzy) : Prop :=
  ∀ r, r < s.ruleCount → RuleValid s (s.rules r)

instance instDecidableRulesValid (s : AutoFuzzy) : Decidable (RulesValid s) := by
  unfold RulesValid; infer_instance

/-- No two registered variables have the same name. -/
def NamesDistinct (s : AutoFuzzy) : Prop :=
  ∀ i, i < s.varCount → ∀ k, k < i → (s.vars k).name ≠ (s.vars i).name

instance instDecidableNamesDistinct (s : AutoFuzzy) : Decidable (NamesDistinct s) := by
  unfold NamesDistinct; infer_instance

/-- Every registered variable name and membership-function name has at most 19
characters. -/
def NamesBounded (s : AutoFuzzy) : Prop :=
  ∀ i, i < s.varCount → (s.vars i).name.length ≤ 19 ∧
    ∀ j, j < (s.vars i).mfCount → ((s.vars i).mfs j).name.length ≤ 19

instance instDecidableNamesBounded (s : AutoFuzzy) : Decidable (NamesBounded s) := by
  unfold NamesBounded; infer_instance

/-- Division that reports a zero divisor instead of dividing. -/
def checkedDiv (x y : ℚ) : Option ℚ :=
  if y = 0 then none else some (x / y)

/-- The divisor of the division that `calculateMembership` performs on the branch it
takes for `mf` and a numeric `value` (exact rationals); `none` on the branches that
return a constant. -/
def calculateMembershipDivisor (mf : MembershipFunction) (value : ℚ) : Option ℚ :=
  if mf.type = 0 then
    if value ≤ mf.params 0 ∨ value ≥ mf.params 2 then none
    else if value ≤ mf.params 1 then some (mf.params 1 - mf.params 0)
    else some (mf.params 2 - mf.params 1)
  else
    if value ≤ mf.params 0 ∨ value ≥ mf.params 3 then none
    else if value ≥ mf.params 1 ∧ value ≤ mf.params 2 then none
    else if value < mf.params 1 then some (mf.params 1 - mf.params 0)
    else some (mf.params 3 - mf.params 2)

/-- The function `calculateMembership`, over exact rationals, with each of its four
divisions checked: `none` when the branch taken divides by zero. -/
def calculateMembershipChecked (mf : MembershipFunction) (value : ℚ) : Option ℚ :=
  if mf.type = 0 then
    if value ≤ mf.params 0 ∨ value ≥ mf.params 2 then some 0
    else if value ≤ mf.params 1 then
      checkedDiv (value - mf.params 0) (mf.params 1 - mf.params 0)
    else checkedDiv (mf.params 2 - value) (mf.params 2 - mf.params 1)
  else
    if value ≤ mf.params 0 ∨ value ≥ mf.params 3 then some 0
    else if value ≥ mf.params 1 ∧ value ≤ mf.params 2 then some 1
    else if value < mf.params 1 then
      checkedDiv (value - mf.params 0) (mf.params 1 - mf.params 0)
    else checkedDiv (mf.params 3 - value) (mf.params 3 - mf.params 2)

/-- A `float` that a caller passes as the crisp value: a number, or NaN, with which every
comparison of the source (`<=`, `>=`, `<`) is false. -/
inductive FloatValue where
  | num (q : ℚ)
  | nan

/-- The test `value <= p` of the source on a value that may be NaN. -/
def FloatValue.le (value : FloatValue) (p : ℚ) : Bool :=
  match value with
  | FloatValue.num q => decide (q ≤ p)
  | FloatValue.nan => false

/-- The test `value >= p` of the source on a value that may be NaN. -/
def FloatValue.ge (value : FloatValue) (p : ℚ) : Bool :=
  match value with
  | FloatValue.num q => decide (q ≥ p)
  | FloatValue.nan => false

/-- The test `value < p` of the source on a value that may be NaN. -/
def FloatValue.lt (value : FloatValue) (p : ℚ) : Bool :=
  match value with
  | FloatValue.num q => decide (q < p)
  | FloatValue.nan => false

/-- The divisor of the division that `calculateMembership` performs on the branch it
takes, for a value that may be NaN (the params are numbers); `none` on the branches that
return a constant. The guards are those of the source, in its order. -/
def calculateMembershipDivisorAt (mf : MembershipFunction) (value : FloatValue) : Option ℚ :=
  if mf.type = 0 then
    if value.le (mf.params 0) || value.ge (mf.params 2) then none
    else if value.le (mf.params 1) then some (mf.params 1 - mf.params 0)
    else some (mf.params 2 - mf.params 1)
  else
    if value.le (mf.params 0) || value.ge (mf.params 3) then none
    else if value.ge (mf.params 1) && value.le (mf.params 2) then none
    else if value.lt (mf.params 1) then some (mf.params 1 - mf.params 0)
    else some (mf.params 3 - mf.params 2)

/-- An array read of `evaluate`: `rules[i]`, `vars[i]`, `vars[i].mfs[j]` or `inputs[i]`. -/
inductive Access where
  | rule (i : Nat)
  | variable (i : Nat)
  | mf (i j : Nat)
  | input (i : Nat)
deriving DecidableEq

/-- The array reads of one iteration (rule `i`) of the loop of `evaluate`: the rule, the
antecedent variable, its membership function and the input of that variable; and, when
the rule fires, the consequent variable and its membership function. -/
def ruleAccesses (s : AutoFuzzy) (inputs : Nat → ℚ) (i : Nat) : List Access :=
  [Access.rule i, Access.variable (s.rules i).ifVar,
    Access.mf (s.rules i).ifVar (s.rules i).ifMF, Access.input (s.rules i).ifVar]
  ++ (if inputMembership s inputs i > 0 then
        [Access.variable (s.rules i).thenVar,
          Access.mf (s.rules i).thenVar (s.rules i).thenMF]
      else [])

/-- All array reads of `evaluate`, in order. The reads of `params` are not listed: they
use the constant indices 0 to 3 of the 4-element array. -/
def evaluateAccesses (s : AutoFuzzy) (inputs : Nat → ℚ) : List Access :=
  (List.range s.ruleCount).flatMap (ruleAccesses s inputs)

/-- The read is in range for the engine `s` and an input vector of `n` entries: it
addresses a registered rule, variable or membership function inside its fixed-size
array, and an input position below both `varCount` and `n`. -/
def Access.InRange (s : AutoFuzzy) (n : Nat) : Access → Prop
  | Access.rule i => i < s.ruleCount ∧ i < MAX_RULES
  | Access.variable i => i < s.varCount ∧ i < MAX_VARS
  | Access.mf i j =>
      i < s.varCount ∧ i < MAX_VARS ∧ j < (s.vars i).mfCount ∧ j < MAX_MEMBERSHIP_FUNCTIONS
  | Access.input i => i < s.varCount ∧ i < n

/-- The body of the loop over `j` in `autoOptimize` (`optimizeMF`), which in addition
records the pair `(i, j)` when the function `vars[i].mfs[j]` is selected for mutation. -/
def optimizeMFLog (rand : RandomSource) (i : Nat)
    (st : (AutoFuzzy × Nat) × List (Nat × Nat)) (j : Nat) :
    (AutoFuzzy × Nat) × List (Nat × Nat) :=
  (optimizeMF rand i st.1 j,
   if (rand st.1.2 0 100 : ℚ) / 100 < mutationRate then st.2 ++ [(i, j)] else st.2)

/-- The loop over `j` of `autoOptimize` (`optimizeVar`) with the record of selections. -/
def optimizeVarLog (rand : RandomSource) (st : (AutoFuzzy × Nat) × List (Nat × Nat))
    (i : Nat) : (AutoFuzzy × Nat) × List (Nat × Nat) :=
  (List.range (st.1.1.vars i).mfCount).foldl (optimizeMFLog rand i) st

/-- The loop over `i` of `autoOptimize` (`optimizePass`) with the record of selections. -/
def optimizePassLog (rand : RandomSource) (st : (AutoFuzzy × Nat) × List (Nat × Nat))
    (_iter : Nat) : (AutoFuzzy × Nat) × List (Nat × Nat) :=
  (List.range st.1.1.varCount).foldl (optimizeVarLog rand) st

/-- The pairs `(i, j)` of the membership functions `vars[i].mfs[j]` that
`autoOptimize(iterations)` selects for mutation, in order of selection. -/
def selections (s : AutoFuzzy) (iterations : Int) (rand : RandomSource) : List (Nat × Nat) :=
  ((List.range iterations.toNat).foldl (optimizePassLog rand) ((s, 0), [])).2

/-- What `autoOptimize` has kept of the engine `s0` when it has reached the engine paired
with the record `st`: the layout, the fourth param slot of every triangular function,
and all params of every function that the record does not name. -/
def FrameKept (s0 : AutoFuzzy) (st : (AutoFuzzy × Nat) × List (Nat × Nat)) : Prop :=
  SameLayout s0 st.1.1 ∧
  (∀ a b, ((s0.vars a).mfs b).type = 0 →
    ((st.1.1.vars a).mfs b).params 3 = ((s0.vars a).mfs b).params 3) ∧
  (∀ a b, (a, b) ∉ st.2 →
    ((st.1.1.vars a).mfs b).params = ((s0.vars a).mfs b).params)

/-- The name `name` resolves nowhere in `s`: `addTriangularMF` and `addTrapezoidalMF` with
`name` as the variable name, and `addRule` with `name` in any of its four positions,
leave the engine state unchanged, whatever the other arguments. -/
def LongNameInert (s : AutoFuzzy) (name : Name) : Prop :=
  ∀ (mfName x y z : Name) (a b c d : ℚ),
    addTriangularMF s name mfName a b c = s ∧
    addTrapezoidalMF s name mfName a b c d = s ∧
    addRule s name x y z = s ∧ addRule s x name y z = s ∧
    addRule s x y name z = s ∧ addRule s x y z name = s

/-- The engine `twoNamedT` after `addRule("T", "Cold", "F", "Low")`. -/
def twoNamedTWithRule : AutoFuzzy :=
  addRule twoNamedT "T".toList "Cold".toList "F".toList "Low".toList

/-- An engine with one variable `X` in `[0, 10]` whose only function `Bad` was registered
with the params `(50, -3, 7)`: out of bounds and out of order. -/
def disordered : AutoFuzzy :=
  addTriangularMF (addInput (construct blank) "X".toList 0 10) "X".toList "Bad".toList 50 (-3) 7

/-- An engine with the single variable `X` in `[0, 10]` and no membership function. -/
def oneVariable : AutoFuzzy :=
  addInput (construct blank) "X".toList 0 10

/-- The variable `X` of `oneVariable` filled with the five functions `A` .. `E`. -/
def crowded : AutoFuzzy :=
  let s := addTriangularMF oneVariable "X".toList "A".toList 0 1 2
  let s := addTriangularMF s "X".toList "B".toList 1 2 3
  let s := addTriangularMF s "X".toList "C".toList 2 3 4
  let s := addTrapezoidalMF s "X".toList "D".toList 3 4 5 6
  addTrapezoidalMF s "X".toList "E".toList 5 6 7 8

/-- An engine with ten variables, named `v`, `vv`, `vvv`, and so on. -/
def tenVariables : AutoFuzzy :=
  (List.range 10).foldl (fun s i => addInput s (List.replicate (i + 1) 'v') 0 1)
    (construct blank)

/-- A name of 26 characters. -/
def longName : Name := "abcdefghijklmnopqrstuvwxyz".toList

/-! ## Membership computation -/

theorem calculateMembership_nonneg (mf : MembershipFunction) (value : ℚ) :
    0 ≤ calculateMembership mf value := by
  unfold calculateMembership
  split_ifs with h0 h1 h2 h3 h4 h5
  · exact le_refl _
  · push_neg at h1
    exact div_nonneg (by linarith) (by linarith)
  · push_neg at h1 h2
    exact div_nonneg (by linarith) (by linarith)
  · exact le_refl _
  · exact zero_le_one
  · push_neg at h3
    exact div_nonneg (by linarith) (by linarith)
  · push_neg at h3 h5
    have h6 : mf.params 2 < value := by
      by_contra hc
      exact h4 ⟨h5, not_lt.1 hc⟩
    exact div_nonneg (by linarith) (by linarith)

theorem calculateMembership_le_one (mf : MembershipFunction) (value : ℚ) :
    calculateMembership mf value ≤ 1 := by
  unfold calculateMembership
  split_ifs with h0 h1 h2 h3 h4 h5
  · exact zero_le_one
  · push_neg at h1
    have hd : 0 < mf.params 1 - mf.params 0 := by linarith
    exact (div_le_one hd).2 (by linarith)
  · push_neg at h1 h2
    have hd : 0 < mf.params 2 - mf.params 1 := by linarith
    exact (div_le_one hd).2 (by linarith)
  · exact zero_le_one
  · exact le_refl _
  · push_neg at h3
    have hd : 0 < mf.params 1 - mf.params 0 := by linarith
    exact (div_le_one hd).2 (by linarith)
  · push_neg at h3 h5
    have h6 : mf.params 2 < value := by
      by_contra hc
      exact h4 ⟨h5, not_lt.1 hc⟩
    have hd : 0 < mf.params 3 - mf.params 2 := by linarith
    exact (div_le_one hd).2 (by linarith)

/-- C4: for every membership function, of either shape and with any stored params, and
every crisp value, `calculateMembership` returns a number in the closed interval
`[0, 1]` (arithmetic over exact rationals). -/
theorem calculateMembership_in_unit_interval (mf : MembershipFunction) (value : ℚ) :
    0 ≤ calculateMembership mf value ∧ calculateMembership mf value ≤ 1 :=
  ⟨calculateMembership_nonneg mf value, calculateMembership_le_one mf value⟩

/-- C5, as stated, fails: the well-formed triangular function `(0, 0, 20)` of the
specification's own scenario (`a = b`) has membership 0, not 1, at its peak `b = 0`. -/
theorem triangular_peak_on_shoulder_counterexample :
    (triangular 0 0 20).type = 0 ∧
    (triangular 0 0 20).params 0 ≤ (triangular 0 0 20).params 1 ∧
    (triangular 0 0 20).params 1 ≤ (triangular 0 0 20).params 2 ∧
    calculateMembership (triangular 0 0 20) ((triangular 0 0 20).params 1) = 0 ∧
    calculateMembership (triangular 0 0 20) ((triangular 0 0 20).params 1) ≠ 1 := by
  norm_num [calculateMembership, triangular]

/-- C5, amended (arithmetic over exact rationals): for every triangular membership
function with params `a ≤ b ≤ c`, `calculateMembership` returns 0 at `a` and 0 at `c`; at
`b` it returns 1 when `a < b < c` and 0 otherwise (that is, when `b = a` or `b = c`). -/
theorem triangular_membership_at_corners (mf : MembershipFunction) (ht : mf.type = 0)
    (_hab : mf.params 0 ≤ mf.params 1) (_hbc : mf.params 1 ≤ mf.params 2) :
    calculateMembership mf (mf.params 0) = 0 ∧
    calculateMembership mf (mf.params 2) = 0 ∧
    calculateMembership mf (mf.params 1)
      = if mf.params 0 < mf.params 1 ∧ mf.params 1 < mf.params 2 then 1 else 0 := by
  refine ⟨?_, ?_, ?_⟩
  · simp [calculateMembership, ht]
  · simp [calculateMembership, ht]
  · by_cases h : mf.params 0 < mf.params 1 ∧ mf.params 1 < mf.params 2
    · have hd : mf.params 1 - mf.params 0 ≠ 0 := by linarith [h.1]
      simp [calculateMembership, ht, h, not_le.2 h.1, not_le.2 h.2, div_self hd]
    · have h2 : mf.params 1 ≤ mf.params 0 ∨ mf.params 1 ≥ mf.params 2 := by
        by_contra hc
        push_neg at hc
        exact h hc
      simp [calculateMembership, ht, h, h2]

/-- The triangular function `(0, 10, 20)` is 0 at 0 and at 20 and 1 at 10. -/
theorem triangular_membership_at_corners_witness :
    calculateMembership (triangular 0 10 20) 0 = 0 ∧
    calculateMembership (triangular 0 10 20) 20 = 0 ∧
    calculateMembership (triangular 0 10 20) 10 = 1 := by
  have h := triangular_membership_at_corners (triangular 0 10 20) rfl
    (by norm_num [triangular]) (by norm_num [triangular])
  norm_num [triangular] at h
  simpa [triangular] using h

theorem triangular_rising (mf : MembershipFunction) (ht : mf.type = 0) (v : ℚ)
    (h0 : mf.params 0 < v) (h1 : v ≤ mf.params 1) (h2 : v < mf.params 2) :
    calculateMembership mf v = (v - mf.params 0) / (mf.params 1 - mf.params 0) := by
  have n1 : ¬ (v ≤ mf.params 0 ∨ v ≥ mf.params 2) := by
    push_neg; exact ⟨h0, h2⟩
  simp only [calculateMembership, ht, if_true, n1, if_false, h1]

theorem triangular_falling (mf : MembershipFunction) (ht : mf.type = 0) (v : ℚ)
    (h0 : mf.params 0 < v) (h1 : mf.params 1 < v) (h2 : v < mf.params 2) :
    calculateMembership mf v = (mf.params 2 - v) / (mf.params 2 - mf.params 1) := by
  have n1 : ¬ (v ≤ mf.params 0 ∨ v ≥ mf.params 2) := by
    push_neg; exact ⟨h0, h2⟩
  simp only [calculateMembership, ht, if_true, n1, if_false, not_le.2 h1]

/-- C6, as stated, fails: on the well-formed triangular function `(20, 40, 40)` of the
specification's scenario (`b = c`), the values 30 ≤ 40 both lie in `[a, b] = [20, 40]`,
but the membership at 30 (one half) is larger than the membership at 40 (zero). -/
theorem triangular_monotone_counterexample :
    (triangular 20 40 40).type = 0 ∧
    (triangular 20 40 40).params 0 ≤ (triangular 20 40 40).params 1 ∧
    (triangular 20 40 40).params 1 ≤ (triangular 20 40 40).params 2 ∧
    (triangular 20 40 40).params 0 ≤ 30 ∧ (30 : ℚ) ≤ 40 ∧
    40 ≤ (triangular 20 40 40).params 1 ∧
    calculateMembership (triangular 20 40 40) 30 = 1 / 2 ∧
    calculateMembership (triangular 20 40 40) 40 = 0 ∧
    ¬ (calculateMembership (triangular 20 40 40) 30
        ≤ calculateMembership (triangular 20 40 40) 40) := by
  norm_num [calculateMembership, triangular]

/-- C6, amended (arithmetic over exact rationals): for every triangular membership
function with params `a ≤ b ≤ c`, `calculateMembership` is non-decreasing on `[a, b]`
except for the pairs `a < v1 < v2 = b` when `b = c`, and non-increasing on `[b, c]`
except for the pairs `b = v1 < v2 < c` when `a = b`; so it is non-decreasing on `[a, b)`
and non-increasing on `(b, c]` for every such function. On the excepted pairs the order
is strictly reversed, because the value at a peak that lies on `c` (on `a`) is 0. -/
theorem triangular_monotone_off_shoulder (mf : MembershipFunction) (ht : mf.type = 0)
    (hab : mf.params 0 ≤ mf.params 1) (hbc : mf.params 1 ≤ mf.params 2) :
    (∀ v1 v2 : ℚ, mf.params 0 ≤ v1 → v1 ≤ v2 → v2 ≤ mf.params 1 →
      ¬ (mf.params 1 = mf.params 2 ∧ v2 = mf.params 1 ∧ mf.params 0 < v1 ∧ v1 < v2) →
      calculateMembership mf v1 ≤ calculateMembership mf v2) ∧
    (∀ v1 v2 : ℚ, mf.params 1 ≤ v1 → v1 ≤ v2 → v2 ≤ mf.params 2 →
      ¬ (mf.params 0 = mf.params 1 ∧ v1 = mf.params 1 ∧ v1 < v2 ∧ v2 < mf.params 2) →
      calculateMembership mf v2 ≤ calculateMembership mf v1) ∧
    (∀ v1 v2 : ℚ, mf.params 1 = mf.params 2 → v2 = mf.params 1 → mf.params 0 < v1 →
      v1 < v2 → calculateMembership mf v2 < calculateMembership mf v1) ∧
    (∀ v1 v2 : ℚ, mf.params 0 = mf.params 1 → v1 = mf.params 1 → v1 < v2 →
      v2 < mf.params 2 → calculateMembership mf v1 < calculateMembership mf v2) := by
  refine ⟨?_, ?_, ?_, ?_⟩
  · intro v1 v2 h1 h12 h2 hex
    by_cases hv1 : v1 ≤ mf.params 0
    · have e : calculateMembership mf v1 = 0 := by simp [calculateMembership, ht, hv1]
      rw [e]; exact calculateMembership_nonneg mf v2
    · push_neg at hv1
      rcases eq_or_lt_of_le h12 with heq | hlt
      · rw [heq]
      · have hv2c : v2 < mf.params 2 := by
          by_contra hc
          push_neg at hc
          exact hex ⟨by linarith, by linarith, hv1, hlt⟩
        rw [triangular_rising mf ht v1 hv1 (by linarith) (by linarith),
          triangular_rising mf ht v2 (by linarith) h2 hv2c]
        exact div_le_div_of_nonneg_right (by linarith) (by linarith)
  · intro v1 v2 h1 h12 h2 hex
    by_cases hv2 : v2 ≥ mf.params 2
    · have e : calculateMembership mf v2 = 0 := by simp [calculateMembership, ht, hv2]
      rw [e]; exact calculateMembership_nonneg mf v1
    · push_neg at hv2
      rcases eq_or_lt_of_le h12 with heq | hlt
      · rw [heq]
      · have hav1 : mf.params 0 < v1 := by
          by_contra hc
          push_neg at hc
          exact hex ⟨by linarith, by linarith, hlt, hv2⟩
        have hd : 0 < mf.params 2 - mf.params 1 := by linarith
        have key : ∀ v : ℚ, mf.params 0 < v → mf.params 1 ≤ v → v < mf.params 2 →
            calculateMembership mf v = (mf.params 2 - v) / (mf.params 2 - mf.params 1) := by
          intro v hv0 hv hv2
          rcases eq_or_lt_of_le hv with heq | hlt
          · have hd0 : mf.params 1 - mf.params 0 ≠ 0 := by linarith
            rw [triangular_rising mf ht v hv0 (by linarith) hv2, ← heq,
              div_self hd0, div_self hd.ne']
          · exact triangular_falling mf ht v hv0 hlt hv2
        rw [key v1 hav1 h1 (by linarith), key v2 (by linarith) (by linarith) hv2]
        exact div_le_div_of_nonneg_right (by linarith) hd.le
  · intro v1 v2 hbc2 hv2 hv1 hlt
    have e2 : calculateMembership mf v2 = 0 := by
      have hge : v2 ≥ mf.params 2 := by rw [hv2, hbc2]
      simp [calculateMembership, ht, hge]
    rw [e2, triangular_rising mf ht v1 hv1 (by linarith) (by linarith)]
    exact div_pos (by linarith) (by linarith)
  · intro v1 v2 hab2 hv1 hlt hv2
    have e1 : calculateMembership mf v1 = 0 := by
      have hle : v1 ≤ mf.params 0 := by rw [hv1, hab2]
      simp [calculateMembership, ht, hle]
    rw [e1, triangular_falling mf ht v2 (by linarith) (by linarith) hv2]
    exact div_pos (by linarith) (by linarith)

/-- The only ramps of the scenario's shapes are covered: on `Hot(20, 40, 40)` membership
at 25 is at most membership at 30, and on `Cold(0, 0, 20)` membership at 10 is at most
membership at 5. -/
theorem triangular_monotone_off_shoulder_witness :
    calculateMembership (triangular 20 40 40) 25
      ≤ calculateMembership (triangular 20 40 40) 30 ∧
    calculateMembership (triangular 0 0 20) 10 ≤ calculateMembership (triangular 0 0 20) 5 :=
  ⟨(triangular_monotone_off_shoulder (triangular 20 40 40) rfl
      (by norm_num [triangular]) (by norm_num [triangular])).1 25 30
      (by norm_num [triangular]) (by norm_num) (by norm_num [triangular])
      (by norm_num [triangular]),
   (triangular_monotone_off_shoulder (triangular 0 0 20) rfl
      (by norm_num [triangular]) (by norm_num [triangular])).2.1 5 10
      (by norm_num [triangular]) (by norm_num) (by norm_num [triangular])
      (by norm_num [triangular])⟩

/-- C7, as stated, fails: on the well-formed trapezoidal function `(0, 0, 10, 20)`
(`a = b`) the value 0 lies on the plateau `[b, c] = [0, 10]`, but its membership is 0. -/
theorem trapezoidal_plateau_counterexample :
    (trapezoidal 0 0 10 20).type = 1 ∧
    (trapezoidal 0 0 10 20).params 0 ≤ (trapezoidal 0 0 10 20).params 1 ∧
    (trapezoidal 0 0 10 20).params 1 ≤ (trapezoidal 0 0 10 20).params 2 ∧
    (trapezoidal 0 0 10 20).params 2 ≤ (trapezoidal 0 0 10 20).params 3 ∧
    (trapezoidal 0 0 10 20).params 1 ≤ 0 ∧ (0 : ℚ) ≤ (trapezoidal 0 0 10 20).params 2 ∧
    calculateMembership (trapezoidal 0 0 10 20) 0 = 0 ∧
    calculateMembership (trapezoidal 0 0 10 20) 0 ≠ 1 := by
  norm_num [calculateMembership, trapezoidal]

/-- C7, amended: for every trapezoidal membership function with params
`a ≤ b ≤ c ≤ d`, `calculateMembership` returns 1 for every value `v` with `b ≤ v ≤ c`
that lies strictly inside the support, `a < v < d`, and returns 0 for every value
`v ≤ a` and every value `v ≥ d` (so also at `a` and at `d`). -/
theorem trapezoidal_plateau_inside_support (mf : MembershipFunction) (ht : mf.type ≠ 0)
    (_hab : mf.params 0 ≤ mf.params 1) (_hbc : mf.params 1 ≤ mf.params 2)
    (_hcd : mf.params 2 ≤ mf.params 3) :
    (∀ v : ℚ, mf.params 1 ≤ v → v ≤ mf.params 2 → mf.params 0 < v → v < mf.params 3 →
      calculateMembership mf v = 1) ∧
    (∀ v : ℚ, v ≤ mf.params 0 ∨ v ≥ mf.params 3 → calculateMembership mf v = 0) := by
  constructor
  · intro v h1 h2 h0 h3
    have n1 : ¬ (v ≤ mf.params 0 ∨ v ≥ mf.params 3) := by
      push_neg; exact ⟨h0, h3⟩
    have n2 : v ≥ mf.params 1 ∧ v ≤ mf.params 2 := ⟨h1, h2⟩
    simp only [calculateMembership, ht, if_false, n1, n2, and_self, if_true]
  · intro v hv
    simp only [calculateMembership, ht, if_false, hv, if_true]

/-- On the trapezoidal function `(0, 10, 20, 30)`: membership 1 at 15, 0 at 0 and at 35. -/
theorem trapezoidal_plateau_inside_support_witness :
    calculateMembership (trapezoidal 0 10 20 30) 15 = 1 ∧
    calculateMembership (trapezoidal 0 10 20 30) 0 = 0 ∧
    calculateMembership (trapezoidal 0 10 20 30) 35 = 0 :=
  have h := trapezoidal_plateau_inside_support (trapezoidal 0 10 20 30) (by decide)
    (by norm_num [trapezoidal]) (by norm_num [trapezoidal]) (by norm_num [trapezoidal])
  ⟨h.1 15 (by norm_num [trapezoidal]) (by norm_num [trapezoidal])
      (by norm_num [trapezoidal]) (by norm_num [trapezoidal]),
   h.2 0 (Or.inl (by norm_num [trapezoidal])),
   h.2 35 (Or.inr (by norm_num [trapezoidal]))⟩

/-! ## Inference -/

theorem evaluateStep_of_fire (s : AutoFuzzy) (inputs : Nat → ℚ) (acc : ℚ × ℚ) (i : Nat)
    (hf : 0 < inputMembership s inputs i) :
    evaluateStep s inputs acc i
      = (acc.1 + consequentCenter s i * inputMembership s inputs i,
         acc.2 + inputMembership s inputs i) := by
  have hf1 : inputMembership s inputs i > 0 := hf
  rw [evaluateStep, if_pos hf1, consequentCenter]

theorem evaluateStep_of_not_fire (s : AutoFuzzy) (inputs : Nat → ℚ) (acc : ℚ × ℚ) (i : Nat)
    (hf : ¬ 0 < inputMembership s inputs i) :
    evaluateStep s inputs acc i = acc := by
  have hf1 : ¬ inputMembership s inputs i > 0 := hf
  rw [evaluateStep, if_neg hf1]

theorem evaluateStep_fold_of_none_fire (s : AutoFuzzy) (inputs : Nat → ℚ) (l : List Nat)
    (acc : ℚ × ℚ) (h : ∀ i ∈ l, ¬ 0 < inputMembership s inputs i) :
    l.foldl (evaluateStep s inputs) acc = acc := by
  induction l generalizing acc with
  | nil => rfl
  | cons i t ih =>
    rw [List.foldl_cons, evaluateStep_of_not_fire s inputs acc i (h i (List.mem_cons_self _ _))]
    exact ih acc (fun k hk => h k (List.mem_cons_of_mem _ hk))

theorem evaluateStep_fold_weight_mono (s : AutoFuzzy) (inputs : Nat → ℚ) (l : List Nat)
    (acc : ℚ × ℚ) : acc.2 ≤ (l.foldl (evaluateStep s inputs) acc).2 := by
  induction l generalizing acc with
  | nil => exact le_refl _
  | cons i t ih =>
    rw [List.foldl_cons]
    refine le_trans ?_ (ih (evaluateStep s inputs acc i))
    by_cases hf : 0 < inputMembership s inputs i
    · rw [evaluateStep_of_fire s inputs acc i hf]
      exact le_add_of_nonneg_right hf.le
    · rw [evaluateStep_of_not_fire s inputs acc i hf]

theorem evaluateStep_fold_pos (s : AutoFuzzy) (inputs : Nat → ℚ) (l : List Nat)
    (hex : ∃ i ∈ l, 0 < inputMembership s inputs i) (acc : ℚ × ℚ) (hacc : 0 ≤ acc.2) :
    0 < (l.foldl (evaluateStep s inputs) acc).2 := by
  induction l generalizing acc with
  | nil => obtain ⟨i, hi, _⟩ := hex; cases hi
  | cons i t ih =>
    rw [List.foldl_cons]
    by_cases hf : 0 < inputMembership s inputs i
    · refine lt_of_lt_of_le ?_ (evaluateStep_fold_weight_mono s inputs t _)
      rw [evaluateStep_of_fire s inputs acc i hf]
      exact add_pos_of_nonneg_of_pos hacc hf
    · rw [evaluateStep_of_not_fire s inputs acc i hf]
      obtain ⟨k, hk, hkf⟩ := hex
      rcases List.mem_cons.1 hk with rfl | hkt
      · exact absurd hkf hf
      · exact ih ⟨k, hkt, hkf⟩ acc hacc

theorem evaluateStep_fold_bounds (s : AutoFuzzy) (inputs : Nat → ℚ) (lo hi : ℚ) (l : List Nat)
    (hc : ∀ i ∈ l, 0 < inputMembership s inputs i →
      lo ≤ consequentCenter s i ∧ consequentCenter s i ≤ hi)
    (acc : ℚ × ℚ) (hlo : lo * acc.2 ≤ acc.1) (hhi : acc.1 ≤ hi * acc.2) :
    lo * (l.foldl (evaluateStep s inputs) acc).2 ≤ (l.foldl (evaluateStep s inputs) acc).1 ∧
    (l.foldl (evaluateStep s inputs) acc).1 ≤ hi * (l.foldl (evaluateStep s inputs) acc).2 := by
  induction l generalizing acc with
  | nil => exact ⟨hlo, hhi⟩
  | cons i t ih =>
    rw [List.foldl_cons]
    have hct : ∀ k ∈ t, 0 < inputMembership s inputs k →
        lo ≤ consequentCenter s k ∧ consequentCenter s k ≤ hi :=
      fun k hk => hc k (List.mem_cons_of_mem _ hk)
    by_cases hf : 0 < inputMembership s inputs i
    · have hci := hc i (List.mem_cons_self _ _) hf
      have h1 := mul_le_mul_of_nonneg_right hci.1 hf.le
      have h2 := mul_le_mul_of_nonneg_right hci.2 hf.le
      rw [evaluateStep_of_fire s inputs acc i hf]
      refine ih hct _ ?_ ?_
      · show lo * (acc.2 + inputMembership s inputs i)
          ≤ acc.1 + consequentCenter s i * inputMembership s inputs i
        linarith
      · show acc.1 + consequentCenter s i * inputMembership s inputs i
          ≤ hi * (acc.2 + inputMembership s inputs i)
        linarith
    · rw [evaluateStep_of_not_fire s inputs acc i hf]
      exact ih hct acc hlo hhi

/-- When some rule fires, `evaluate` lies between any two bounds of the centers of the
firing rules. -/
theorem evaluate_between (s : AutoFuzzy) (inputs : Nat → ℚ) (lo hi : ℚ)
    (hex : ∃ i, i < s.ruleCount ∧ 0 < inputMembership s inputs i)
    (hc : ∀ i, i < s.ruleCount → 0 < inputMembership s inputs i →
      lo ≤ consequentCenter s i ∧ consequentCenter s i ≤ hi) :
    lo ≤ evaluate s inputs ∧ evaluate s inputs ≤ hi := by
  have hpos : 0 < ((List.range s.ruleCount).foldl (evaluateStep s inputs) (0, 0)).2 := by
    obtain ⟨i, hi1, hi2⟩ := hex
    exact evaluateStep_fold_pos s inputs _ ⟨i, List.mem_range.2 hi1, hi2⟩ (0, 0) (le_refl _)
  have hb := evaluateStep_fold_bounds s inputs lo hi (List.range s.ruleCount)
    (fun i hi1 => hc i (List.mem_range.1 hi1)) (0, 0) (by simp) (by simp)
  have hgt : ((List.range s.ruleCount).foldl (evaluateStep s inputs) (0, 0)).2 > 0 := hpos
  rw [evaluate]
  simp only [if_pos hgt]
  exact ⟨(le_div_iff₀ hpos).2 hb.1, (div_le_iff₀ hpos).2 hb.2⟩

/-- In the scenario, at input 30, the rule `Cold -> Low` does not fire and the rule
`Hot -> High` fires with degree one half. -/
theorem fanControl_degrees_at_30 :
    inputMembership fanControl (inputsOf [30]) 0 = 0 ∧
    inputMembership fanControl (inputsOf [30]) 1 = 1 / 2 := by
  have e0 : inputMembership fanControl (inputsOf [30]) 0
      = calculateMembership (triangular 0 0 20) 30 := rfl
  have e1 : inputMembership fanControl (inputsOf [30]) 1
      = calculateMembership (triangular 20 40 40) 30 := rfl
  rw [e0, e1]
  norm_num [calculateMembership, triangular]

/-- In the scenario, at input 10, the rule `Cold -> Low` fires with degree one half and
the rule `Hot -> High` does not fire. -/
theorem fanControl_degrees_at_10 :
    inputMembership fanControl (inputsOf [10]) 0 = 1 / 2 ∧
    inputMembership fanControl (inputsOf [10]) 1 = 0 := by
  have e0 : inputMembership fanControl (inputsOf [10]) 0
      = calculateMembership (triangular 0 0 20) 10 := rfl
  have e1 : inputMembership fanControl (inputsOf [10]) 1
      = calculateMembership (triangular 20 40 40) 10 := rfl
  rw [e0, e1]
  norm_num [calculateMembership, triangular]

/-- In the scenario, at input 20, neither rule fires. -/
theorem fanControl_degrees_at_20 :
    inputMembership fanControl (inputsOf [20]) 0 = 0 ∧
    inputMembership fanControl (inputsOf [20]) 1 = 0 := by
  have e0 : inputMembership fanControl (inputsOf [20]) 0
      = calculateMembership (triangular 0 0 20) 20 := rfl
  have e1 : inputMembership fanControl (inputsOf [20]) 1
      = calculateMembership (triangular 20 40 40) 20 := rfl
  rw [e0, e1]
  norm_num [calculateMembership, triangular]

/-- C1: for every engine state and every input vector (exact rationals), if at least
one rule has antecedent membership degree `> 0`, the value returned by `evaluate` is not
smaller than the minimum and not larger than the maximum of the consequent centers of
the registered rules: some registered rules `j` and `k` carry the least and the greatest
center, and `evaluate` lies between these two centers. -/
theorem evaluate_within_center_hull (s : AutoFuzzy) (inputs : Nat → ℚ)
    (hex : ∃ i, i < s.ruleCount ∧ 0 < inputMembership s inputs i) :
    ∃ j, j < s.ruleCount ∧ ∃ k, k < s.ruleCount ∧
      (∀ r, r < s.ruleCount →
        consequentCenter s j ≤ consequentCenter s r ∧
        consequentCenter s r ≤ consequentCenter s k) ∧
      consequentCenter s j ≤ evaluate s inputs ∧
      evaluate s inputs ≤ consequentCenter s k := by
  have hne : (Finset.range s.ruleCount).Nonempty := by
    obtain ⟨i, hi1, _⟩ := hex
    exact ⟨i, Finset.mem_range.2 hi1⟩
  obtain ⟨j, hj, hjmin⟩ := Finset.exists_min_image _ (consequentCenter s) hne
  obtain ⟨k, hk, hkmax⟩ := Finset.exists_max_image _ (consequentCenter s) hne
  refine ⟨j, Finset.mem_range.1 hj, k, Finset.mem_range.1 hk, ?_, ?_⟩
  · exact fun r hr => ⟨hjmin r (Finset.mem_range.2 hr), hkmax r (Finset.mem_range.2 hr)⟩
  · exact evaluate_between s inputs _ _ hex
      (fun r hr _ => ⟨hjmin r (Finset.mem_range.2 hr), hkmax r (Finset.mem_range.2 hr)⟩)

/-- In the scenario at input 30 a rule fires, and the output lies between the least and
the greatest consequent center. -/
theorem evaluate_within_center_hull_witness :
    (∃ i, i < fanControl.ruleCount ∧ 0 < inputMembership fanControl (inputsOf [30]) i) ∧
    ∃ j, j < fanControl.ruleCount ∧ ∃ k, k < fanControl.ruleCount ∧
      (∀ r, r < fanControl.ruleCount →
        consequentCenter fanControl j ≤ consequentCenter fanControl r ∧
        consequentCenter fanControl r ≤ consequentCenter fanControl k) ∧
      consequentCenter fanControl j ≤ evaluate fanControl (inputsOf [30]) ∧
      evaluate fanControl (inputsOf [30]) ≤ consequentCenter fanControl k :=
  have hex : ∃ i, i < fanControl.ruleCount ∧
      0 < inputMembership fanControl (inputsOf [30]) i :=
    ⟨1, by decide, by rw [fanControl_degrees_at_30.2]; norm_num⟩
  ⟨hex, evaluate_within_center_hull fanControl (inputsOf [30]) hex⟩

/-- C2: for every engine state and every input vector, if no rule has antecedent
membership degree `> 0` (in particular when no rule is registered), `evaluate` returns
exactly 0. -/
theorem evaluate_zero_when_no_rule_fires (s : AutoFuzzy) (inputs : Nat → ℚ)
    (h : ∀ i, i < s.ruleCount → ¬ 0 < inputMembership s inputs i) :
    evaluate s inputs = 0 := by
  have hfold : (List.range s.ruleCount).foldl (evaluateStep s inputs) (0, 0) = (0, 0) :=
    evaluateStep_fold_of_none_fire s inputs _ _ (fun i hi => h i (List.mem_range.1 hi))
  rw [evaluate, hfold]
  simp

/-- In the scenario at input 20 neither of the two rules fires and the output is 0. -/
theorem evaluate_zero_when_no_rule_fires_witness :
    fanControl.ruleCount = 2 ∧
    (∀ i, i < fanControl.ruleCount → ¬ 0 < inputMembership fanControl (inputsOf [20]) i) ∧
    evaluate fanControl (inputsOf [20]) = 0 :=
  have h : ∀ i, i < fanControl.ruleCount →
      ¬ 0 < inputMembership fanControl (inputsOf [20]) i := by
    intro i hi
    have h2 : fanControl.ruleCount = 2 := by decide
    rw [h2] at hi
    interval_cases i
    · rw [fanControl_degrees_at_20.1]; exact lt_irrefl _
    · rw [fanControl_degrees_at_20.2]; exact lt_irrefl _
  ⟨by decide, h, evaluate_zero_when_no_rule_fires fanControl (inputsOf [20]) h⟩

/-- C3: for every engine state and every input vector (exact rationals), if at least
one rule fires and all firing rules have the same consequent center `c` (in particular
when exactly one rule fires), `evaluate` returns exactly `c`. -/
theorem evaluate_common_center (s : AutoFuzzy) (inputs : Nat → ℚ) (c : ℚ)
    (hex : ∃ i, i < s.ruleCount ∧ 0 < inputMembership s inputs i)
    (hc : ∀ i, i < s.ruleCount → 0 < inputMembership s inputs i →
      consequentCenter s i = c) :
    evaluate s inputs = c := by
  have h := evaluate_between s inputs c c hex (fun i hi hf => by rw [hc i hi hf]; simp)
  exact le_antisymm h.2 h.1

/-- The scenario of the specification: `evaluate([30]) = 100` (only `Hot -> High` fires,
with degree one half) and `evaluate([10]) = 0` (only `Cold -> Low` fires, with degree one
half, and the center of `Low` is 0). -/
theorem evaluate_common_center_witness :
    evaluate fanControl (inputsOf [30]) = 100 ∧ evaluate fanControl (inputsOf [10]) = 0 := by
  have h2 : fanControl.ruleCount = 2 := by decide
  constructor
  · refine evaluate_common_center fanControl (inputsOf [30]) 100
      ⟨1, by decide, by rw [fanControl_degrees_at_30.2]; norm_num⟩ ?_
    intro i hi hf
    rw [h2] at hi
    interval_cases i
    · rw [fanControl_degrees_at_30.1] at hf; exact absurd hf (lt_irrefl _)
    · rfl
  · refine evaluate_common_center fanControl (inputsOf [10]) 0
      ⟨0, by decide, by rw [fanControl_degrees_at_10.1]; norm_num⟩ ?_
    intro i hi hf
    rw [h2] at hi
    interval_cases i
    · rfl
    · rw [fanControl_degrees_at_10.2] at hf; exact absurd hf (lt_irrefl _)

/-! ## Parameter optimizer -/

theorem constrain_mem (amt low high : ℚ) (h : low ≤ high) :
    low ≤ constrain amt low high ∧ constrain amt low high ≤ high := by
  unfold constrain
  split_ifs with h1 h2
  · exact ⟨le_refl _, h⟩
  · exact ⟨h, le_refl _⟩
  · exact ⟨not_lt.1 h1, not_lt.1 h2⟩

theorem mutateStep_fold_frame (rand : RandomSource) (vmin vmax : ℚ)
    (mf : MembershipFunction) (n m : Nat) :
    ((List.range m).foldl (mutateStep rand vmin vmax) (mf, n)).1.type = mf.type ∧
    ((List.range m).foldl (mutateStep rand vmin vmax) (mf, n)).1.name = mf.name := by
  induction m with
  | zero => exact ⟨rfl, rfl⟩
  | succ m ih =>
    rw [List.range_succ, List.foldl_append]
    exact ih

theorem mutateStep_fold_bounds (rand : RandomSource) (vmin vmax : ℚ) (h : vmin ≤ vmax)
    (mf : MembershipFunction) (n m : Nat) :
    ∀ k, k < m →
      vmin ≤ ((List.range m).foldl (mutateStep rand vmin vmax) (mf, n)).1.params k ∧
      ((List.range m).foldl (mutateStep rand vmin vmax) (mf, n)).1.params k ≤ vmax := by
  induction m with
  | zero => exact fun k hk => absurd hk (Nat.not_lt_zero k)
  | succ m ih =>
    rw [List.range_succ, List.foldl_append]
    intro k hk
    simp only [List.foldl_cons, List.foldl_nil, mutateStep]
    by_cases hkm : k = m
    · subst hkm
      rw [Function.update_same]
      exact constrain_mem _ _ _ h
    · rw [Function.update_noteq hkm]
      exact ih k (by omega)

theorem orderStep_fold (lo hi : ℚ) (K : Nat) (mf : MembershipFunction) (m : Nat)
    (hb : ∀ k, k < K → lo ≤ mf.params k ∧ mf.params k ≤ hi) :
    ((List.range' 1 m).foldl orderStep mf).type = mf.type ∧
    ((List.range' 1 m).foldl orderStep mf).name = mf.name ∧
    (∀ k, k < K → lo ≤ ((List.range' 1 m).foldl orderStep mf).params k ∧
      ((List.range' 1 m).foldl orderStep mf).params k ≤ hi) ∧
    (∀ k, k + 1 ≤ m → ((List.range' 1 m).foldl orderStep mf).params k
      ≤ ((List.range' 1 m).foldl orderStep mf).params (k + 1)) ∧
    (∀ k, m < k → ((List.range' 1 m).foldl orderStep mf).params k = mf.params k) := by
  induction m with
  | zero => exact ⟨rfl, rfl, hb, fun k hk => absurd hk (by omega), fun _ _ => rfl⟩
  | succ m ih =>
    rw [List.range'_1_concat, List.foldl_append]
    obtain ⟨h1, h2, h3, h4, h5⟩ := ih
    simp only [List.foldl_cons, List.foldl_nil]
    generalize (List.range' 1 m).foldl orderStep mf = r at h1 h2 h3 h4 h5
    unfold orderStep
    have e : 1 + m - 1 = m := by omega
    rw [e]
    split_ifs with hlt
    · refine ⟨h1, h2, ?_, ?_, ?_⟩
      · intro k hk
        by_cases hkm : k = 1 + m
        · subst hkm
          simp only [Function.update_same]
          exact h3 m (by omega)
        · simp only [Function.update_noteq hkm]
          exact h3 k hk
      · intro k hk
        by_cases hkm : k = m
        · subst hkm
          have e1 : k + 1 = 1 + k := by omega
          have e2 : k ≠ 1 + k := by omega
          rw [e1]
          simp only [Function.update_same, Function.update_noteq e2, le_refl]
        · have e1 : k + 1 ≠ 1 + m := by omega
          have e2 : k ≠ 1 + m := by omega
          simp only [Function.update_noteq e1, Function.update_noteq e2]
          exact h4 k (by omega)
      · intro k hk
        have e2 : k ≠ 1 + m := by omega
        simp only [Function.update_noteq e2]
        exact h5 k (by omega)
    · refine ⟨h1, h2, h3, ?_, fun k hk => h5 k (by omega)⟩
      intro k hk
      by_cases hkm : k = m
      · subst hkm
        have e1 : k + 1 = 1 + k := by omega
        rw [e1]
        exact not_lt.1 hlt
      · exact h4 k (by omega)

theorem paramCount_eq_of_type_eq (mf mf1 : MembershipFunction) (h : mf1.type = mf.type) :
    paramCount mf1 = paramCount mf := by
  unfold paramCount; rw [h]

theorem mutate_type (rand : RandomSource) (vmin vmax : ℚ) (mf : MembershipFunction) (n : Nat) :
    (mutate rand vmin vmax mf n).1.type = mf.type ∧
    (mutate rand vmin vmax mf n).1.name = mf.name := by
  unfold mutate
  obtain ⟨o1, o2, _⟩ := orderStep_fold 0 0 0
    ((List.range (paramCount mf)).foldl (mutateStep rand vmin vmax) (mf, n)).1
    (paramCount mf - 1) (fun k hk => absurd hk (Nat.not_lt_zero k))
  obtain ⟨m1, m2⟩ := mutateStep_fold_frame rand vmin vmax mf n (paramCount mf)
  exact ⟨o1.trans m1, o2.trans m2⟩

theorem mutate_wellFormed (rand : RandomSource) (vmin vmax : ℚ) (h : vmin ≤ vmax)
    (mf : MembershipFunction) (n : Nat) :
    ParamsWellFormed vmin vmax (mutate rand vmin vmax mf n).1 := by
  have m3 := mutateStep_fold_bounds rand vmin vmax h mf n (paramCount mf)
  obtain ⟨o1, o2, o3, o4, o5⟩ := orderStep_fold vmin vmax (paramCount mf)
    ((List.range (paramCount mf)).foldl (mutateStep rand vmin vmax) (mf, n)).1
    (paramCount mf - 1) m3
  have hpc : paramCount (mutate rand vmin vmax mf n).1 = paramCount mf :=
    paramCount_eq_of_type_eq _ _ (mutate_type rand vmin vmax mf n).1
  unfold ParamsWellFormed
  rw [hpc]
  exact ⟨o3, fun k hk => o4 k (by omega)⟩

theorem SameLayout.refl (s : AutoFuzzy) : SameLayout s s :=
  ⟨rfl, rfl, rfl, fun _ => ⟨rfl, rfl, rfl, rfl, rfl, fun _ => ⟨rfl, rfl⟩⟩⟩

theorem SameLayout.trans {s t u : AutoFuzzy} (h1 : SameLayout s t) (h2 : SameLayout t u) :
    SameLayout s u := by
  obtain ⟨a1, a2, a3, a4⟩ := h1
  obtain ⟨b1, b2, b3, b4⟩ := h2
  refine ⟨b1.trans a1, b2.trans a2, b3.trans a3, fun a => ?_⟩
  obtain ⟨c1, c2, c3, c4, c5, c6⟩ := a4 a
  obtain ⟨d1, d2, d3, d4, d5, d6⟩ := b4 a
  exact ⟨d1.trans c1, d2.trans c2, d3.trans c3, d4.trans c4, d5.trans c5,
    fun b => ⟨(d6 b).1.trans (c6 b).1, (d6 b).2.trans (c6 b).2⟩⟩

theorem optimizeMF_sameLayout (rand : RandomSource) (i : Nat) (st : AutoFuzzy × Nat) (j : Nat) :
    SameLayout st.1 (optimizeMF rand i st j).1 := by
  unfold optimizeMF
  split_ifs with h
  · refine ⟨rfl, rfl, rfl, fun a => ?_⟩
    by_cases ha : a = i
    · subst ha
      simp only [Function.update_same, true_and]
      intro b
      by_cases hb : b = j
      · subst hb
        simp only [Function.update_same]
        exact ⟨(mutate_type rand _ _ _ _).2, (mutate_type rand _ _ _ _).1⟩
      · simp only [Function.update_noteq hb, and_self]
    · simp [Function.update_noteq ha]
  · exact SameLayout.refl _

theorem foldl_sameLayout {α : Type} (f : AutoFuzzy × Nat → α → AutoFuzzy × Nat)
    (hf : ∀ st x, SameLayout st.1 (f st x).1) (l : List α) (st : AutoFuzzy × Nat) :
    SameLayout st.1 (l.foldl f st).1 := by
  induction l generalizing st with
  | nil => exact SameLayout.refl _
  | cons x t ih => exact SameLayout.trans (hf st x) (ih (f st x))

theorem optimizeVar_sameLayout (rand : RandomSource) (st : AutoFuzzy × Nat) (i : Nat) :
    SameLayout st.1 (optimizeVar rand st i).1 :=
  foldl_sameLayout (optimizeMF rand i) (fun st j => optimizeMF_sameLayout rand i st j) _ st

theorem optimizePass_sameLayout (rand : RandomSource) (st : AutoFuzzy × Nat) (iter : Nat) :
    SameLayout st.1 (optimizePass rand st iter).1 :=
  foldl_sameLayout (optimizeVar rand) (optimizeVar_sameLayout rand) _ st

theorem autoOptimize_sameLayout (s : AutoFuzzy) (iterations : Int) (rand : RandomSource) :
    SameLayout s (autoOptimize s iterations rand) :=
  foldl_sameLayout (optimizePass rand) (optimizePass_sameLayout rand) _ (s, 0)

theorem optimizeMF_wellFormed (rand : RandomSource) (i : Nat) (st : AutoFuzzy × Nat) (j : Nat)
    (h : WellFormed st.1) : WellFormed (optimizeMF rand i st j).1 := by
  intro a ha b hb
  obtain ⟨f1, -, -, f4⟩ := optimizeMF_sameLayout rand i st j
  obtain ⟨-, -, g1, g2, g3, -⟩ := f4 a
  rw [f1] at ha
  rw [g3] at hb
  rw [g1, g2]
  have hwf := h a ha b hb
  unfold optimizeMF
  split_ifs with hr
  · by_cases hai : a = i
    · subst hai
      simp only [Function.update_same]
      by_cases hbj : b = j
      · subst hbj
        simp only [Function.update_same]
        refine mutate_wellFormed rand _ _ ?_ _ _
        have h0 := hwf.1 0 (by unfold paramCount; split_ifs <;> omega)
        exact le_trans h0.1 h0.2
      · simp only [Function.update_noteq hbj]
        exact hwf
    · simp only [Function.update_noteq hai]
      exact hwf
  · exact hwf

theorem optimizeVar_wellFormed (rand : RandomSource) (st : AutoFuzzy × Nat) (i : Nat)
    (h : WellFormed st.1) : WellFormed (optimizeVar rand st i).1 := by
  unfold optimizeVar
  generalize List.range (st.1.vars i).mfCount = l
  induction l generalizing st with
  | nil => exact h
  | cons j t ih => exact ih (optimizeMF rand i st j) (optimizeMF_wellFormed rand i st j h)

theorem optimizePass_wellFormed (rand : RandomSource) (st : AutoFuzzy × Nat) (iter : Nat)
    (h : WellFormed st.1) : WellFormed (optimizePass rand st iter).1 := by
  unfold optimizePass
  generalize List.range st.1.varCount = l
  induction l generalizing st with
  | nil => exact h
  | cons i t ih => exact ih (optimizeVar rand st i) (optimizeVar_wellFormed rand st i h)

/-- C8: `autoOptimize` preserves membership-function well-formedness. For every engine
state in which every membership function's params (the first 3 of a triangular, the
first 4 of a trapezoidal function) lie in `[min, max]` of its owning variable and are
non-decreasing by index, for every iteration count and every outcome of the random
source, the same holds after `autoOptimize(iterations)`. -/
theorem autoOptimize_preserves_wellFormed (s : AutoFuzzy) (iterations : Int)
    (rand : RandomSource) (h : WellFormed s) :
    WellFormed (autoOptimize s iterations rand) := by
  unfold autoOptimize
  generalize List.range iterations.toNat = l
  have key : ∀ st : AutoFuzzy × Nat, WellFormed st.1 →
      WellFormed (l.foldl (optimizePass rand) st).1 := by
    induction l with
    | nil => exact fun st hst => hst
    | cons a t ih => exact fun st hst => ih _ (optimizePass_wellFormed rand st a hst)
  exact key (s, 0) h

/-- The scenario engine is well-formed, and it is still well-formed after three
iterations of `autoOptimize` driven by `sampleRandom` (whose very first draw, 3, selects
`Cold` for mutation). -/
theorem autoOptimize_preserves_wellFormed_witness :
    WellFormed fanControl ∧ sampleRandom 0 0 100 = 3 ∧
    WellFormed (autoOptimize fanControl 3 sampleRandom) :=
  have h : WellFormed fanControl := by decide
  ⟨h, by decide, autoOptimize_preserves_wellFormed fanControl 3 sampleRandom h⟩

/-! ## Rule registration -/

theorem find_range_eq_none (p : Nat → Bool) (n : Nat) :
    (List.range n).find? p = none ↔ ∀ i, i < n → p i = false := by
  rw [List.find?_eq_none]
  constructor
  · intro h i hi
    simpa using h i (List.mem_range.2 hi)
  · intro h i hi
    simpa using h i (List.mem_range.1 hi)

theorem find_range_eq_some (p : Nat → Bool) (n i : Nat) :
    (List.range n).find? p = some i ↔ i < n ∧ p i = true ∧ ∀ k, k < i → p k = false := by
  induction n generalizing i with
  | zero => simp
  | succ n ih =>
    rw [List.range_succ, List.find?_append]
    cases hf : (List.range n).find? p with
    | some a =>
      obtain ⟨ha1, ha2, ha3⟩ := (ih a).1 hf
      show some a = some i ↔ _
      constructor
      · intro h
        have e : a = i := Option.some.inj h
        subst e
        exact ⟨by omega, ha2, ha3⟩
      · rintro ⟨_, h2, h3⟩
        rcases Nat.lt_trichotomy a i with hlt | heq | hgt
        · rw [h3 a hlt] at ha2; cases ha2
        · rw [heq]
        · rw [ha3 i hgt] at h2; cases h2
    | none =>
      have hn := (find_range_eq_none p n).1 hf
      show List.find? p [n] = some i ↔ _
      rw [List.find?_singleton]
      constructor
      · intro h
        by_cases hp : p n = true
        · rw [if_pos hp] at h
          have e : n = i := Option.some.inj h
          subst e
          exact ⟨by omega, hp, hn⟩
        · rw [if_neg hp] at h; cases h
      · rintro ⟨h1, h2, _⟩
        have e : i = n := by
          rcases Nat.lt_or_ge i n with hlt | hge
          · rw [hn i hlt] at h2; cases h2
          · omega
        subst e
        rw [if_pos h2]

theorem varIndex_eq_none (s : AutoFuzzy) (varName : Name) :
    varIndex s varName = none ↔ ∀ i, i < s.varCount → (s.vars i).name ≠ varName := by
  unfold varIndex
  rw [find_range_eq_none]
  simp only [decide_eq_false_iff_not, ne_eq]

theorem varIndex_eq_some (s : AutoFuzzy) (varName : Name) (i : Nat) :
    varIndex s varName = some i ↔
      i < s.varCount ∧ (s.vars i).name = varName ∧
      ∀ k, k < i → (s.vars k).name ≠ varName := by
  unfold varIndex
  rw [find_range_eq_some]
  simp only [decide_eq_true_eq, decide_eq_false_iff_not, ne_eq]

theorem mfIndex_eq_none (v : Variable) (mfName : Name) :
    mfIndex v mfName = none ↔ ∀ j, j < v.mfCount → (v.mfs j).name ≠ mfName := by
  unfold mfIndex
  rw [find_range_eq_none]
  simp only [decide_eq_false_iff_not, ne_eq]

theorem mfIndex_eq_some (v : Variable) (mfName : Name) (j : Nat) :
    mfIndex v mfName = some j ↔
      j < v.mfCount ∧ (v.mfs j).name = mfName ∧
      ∀ k, k < j → (v.mfs k).name ≠ mfName := by
  unfold mfIndex
  rw [find_range_eq_some]
  simp only [decide_eq_true_eq, decide_eq_false_iff_not, ne_eq]

theorem addRuleStep_ifVarIndex (s : AutoFuzzy) (ifVar ifMF thenVar thenMF : Name)
    (st : RuleScan) (i : Nat) :
    (addRuleStep s ifVar ifMF thenVar thenMF st i).ifVarIndex
      = if (s.vars i).name = ifVar then some i else st.ifVarIndex := by
  unfold addRuleStep
  split_ifs <;> rfl

theorem addRuleStep_thenVarIndex (s : AutoFuzzy) (ifVar ifMF thenVar thenMF : Name)
    (st : RuleScan) (i : Nat) :
    (addRuleStep s ifVar ifMF thenVar thenMF st i).thenVarIndex
      = if (s.vars i).name = thenVar then some i else st.thenVarIndex := by
  unfold addRuleStep
  split_ifs <;> rfl

theorem addRuleStep_ifMFIndex (s : AutoFuzzy) (ifVar ifMF thenVar thenMF : Name)
    (st : RuleScan) (i : Nat) :
    (addRuleStep s ifVar ifMF thenVar thenMF st i).ifMFIndex
      = if (s.vars i).name = ifVar then
          (match mfIndex (s.vars i) ifMF with
           | some j => some j
           | none => st.ifMFIndex)
        else st.ifMFIndex := by
  unfold addRuleStep
  split_ifs <;> rfl

theorem addRuleStep_thenMFIndex (s : AutoFuzzy) (ifVar ifMF thenVar thenMF : Name)
    (st : RuleScan) (i : Nat) :
    (addRuleStep s ifVar ifMF thenVar thenMF st i).thenMFIndex
      = if (s.vars i).name = thenVar then
          (match mfIndex (s.vars i) thenMF with
           | some j => some j
           | none => st.thenMFIndex)
        else st.thenMFIndex := by
  unfold addRuleStep
  split_ifs <;> rfl

theorem scan_ifVarIndex_none (s : AutoFuzzy) (ifVar ifMF thenVar thenMF : Name) (n : Nat)
    (h : ∀ i, i < n → (s.vars i).name ≠ ifVar) :
    ((List.range n).foldl (addRuleStep s ifVar ifMF thenVar thenMF)
      ⟨none, none, none, none⟩).ifVarIndex = none := by
  induction n with
  | zero => rfl
  | succ n ih =>
    rw [List.range_succ, List.foldl_append, List.foldl_cons, List.foldl_nil,
      addRuleStep_ifVarIndex, if_neg (h n (Nat.lt_succ_self n))]
    exact ih (fun i hi => h i (Nat.lt_succ_of_lt hi))

theorem scan_thenVarIndex_none (s : AutoFuzzy) (ifVar ifMF thenVar thenMF : Name) (n : Nat)
    (h : ∀ i, i < n → (s.vars i).name ≠ thenVar) :
    ((List.range n).foldl (addRuleStep s ifVar ifMF thenVar thenMF)
      ⟨none, none, none, none⟩).thenVarIndex = none := by
  induction n with
  | zero => rfl
  | succ n ih =>
    rw [List.range_succ, List.foldl_append, List.foldl_cons, List.foldl_nil,
      addRuleStep_thenVarIndex, if_neg (h n (Nat.lt_succ_self n))]
    exact ih (fun i hi => h i (Nat.lt_succ_of_lt hi))

theorem scan_ifMFIndex_none (s : AutoFuzzy) (ifVar ifMF thenVar thenMF : Name) (n : Nat)
    (h : ∀ i, i < n → (s.vars i).name = ifVar → mfIndex (s.vars i) ifMF = none) :
    ((List.range n).foldl (addRuleStep s ifVar ifMF thenVar thenMF)
      ⟨none, none, none, none⟩).ifMFIndex = none := by
  induction n with
  | zero => rfl
  | succ n ih =>
    rw [List.range_succ, List.foldl_append, List.foldl_cons, List.foldl_nil,
      addRuleStep_ifMFIndex]
    have ih1 := ih (fun i hi => h i (Nat.lt_succ_of_lt hi))
    split_ifs with hn
    · rw [h n (Nat.lt_succ_self n) hn]
      exact ih1
    · exact ih1

theorem scan_thenMFIndex_none (s : AutoFuzzy) (ifVar ifMF thenVar thenMF : Name) (n : Nat)
    (h : ∀ i, i < n → (s.vars i).name = thenVar → mfIndex (s.vars i) thenMF = none) :
    ((List.range n).foldl (addRuleStep s ifVar ifMF thenVar thenMF)
      ⟨none, none, none, none⟩).thenMFIndex = none := by
  induction n with
  | zero => rfl
  | succ n ih =>
    rw [List.range_succ, List.foldl_append, List.foldl_cons, List.foldl_nil,
      addRuleStep_thenMFIndex]
    have ih1 := ih (fun i hi => h i (Nat.lt_succ_of_lt hi))
    split_ifs with hn
    · rw [h n (Nat.lt_succ_self n) hn]
      exact ih1
    · exact ih1

theorem addRule_of_full (s : AutoFuzzy) (ifVar ifMF thenVar thenMF : Name)
    (h : MAX_RULES ≤ s.ruleCount) : addRule s ifVar ifMF thenVar thenMF = s := by
  have h1 : s.ruleCount ≥ MAX_RULES := h
  rw [addRule, if_pos h1]

theorem addRule_of_scan_none (s : AutoFuzzy) (ifVar ifMF thenVar thenMF : Name)
    (h : (addRuleScan s ifVar ifMF thenVar thenMF).ifVarIndex = none ∨
      (addRuleScan s ifVar ifMF thenVar thenMF).thenVarIndex = none ∨
      (addRuleScan s ifVar ifMF thenVar thenMF).ifMFIndex = none ∨
      (addRuleScan s ifVar ifMF thenVar thenMF).thenMFIndex = none) :
    addRule s ifVar ifMF thenVar thenMF = s := by
  unfold addRule
  split_ifs with hc
  · rfl
  · simp only []
    split
    · rename_i iv tv im tm h1 h2 h3 h4
      rw [h1, h2, h3, h4] at h
      simp at h
    · rfl

theorem mfIndex_none_of_shadowed (s : AutoFuzzy) (h : NoShadowedMF s) (varName mfName : Name)
    (i : Nat) (hi : varIndex s varName = some i) (hmf : mfIndex (s.vars i) mfName = none) :
    ∀ k, k < s.varCount → (s.vars k).name = varName → mfIndex (s.vars k) mfName = none := by
  obtain ⟨h1, h2, h3⟩ := (varIndex_eq_some s varName i).1 hi
  intro k hk hname
  rcases Nat.lt_trichotomy k i with hlt | heq | hgt
  · exact absurd hname (h3 k hlt)
  · rw [heq]; exact hmf
  · have h0 := h k hk i hgt (h2.trans hname.symm)
    rw [mfIndex_eq_none, h0]
    exact fun j hj => absurd hj (Nat.not_lt_zero j)

theorem NoShadowedMF.of_sameLayout {s t : AutoFuzzy} (h : SameLayout s t)
    (hs : NoShadowedMF s) : NoShadowedMF t := by
  obtain ⟨a1, -, -, a4⟩ := h
  intro i hi k hk hname
  rw [(a4 i).2.2.2.2.1]
  rw [(a4 i).1, (a4 k).1] at hname
  exact hs i (a1 ▸ hi) k hk hname

theorem addInput_noShadowedMF (s : AutoFuzzy) (name : Name) (min max : ℚ)
    (hs : NoShadowedMF s) : NoShadowedMF (addInput s name min max) := by
  unfold addInput
  split_ifs with hc
  · exact hs
  · intro i hi k hk hname
    simp only [] at hi
    by_cases hiv : i = s.varCount
    · subst hiv
      simp only [Function.update_same]
    · have hkv : k ≠ s.varCount := by omega
      simp only [Function.update_noteq hiv, Function.update_noteq hkv] at hname ⊢
      exact hs i (by omega) k hk hname

theorem addOutput_noShadowedMF (s : AutoFuzzy) (name : Name) (min max : ℚ)
    (hs : NoShadowedMF s) : NoShadowedMF (addOutput s name min max) := by
  unfold addOutput
  split_ifs with hc
  · exact hs
  · intro i hi k hk hname
    simp only [] at hi
    by_cases hiv : i = s.varCount
    · subst hiv
      simp only [Function.update_same]
    · have hkv : k ≠ s.varCount := by omega
      simp only [Function.update_noteq hiv, Function.update_noteq hkv] at hname ⊢
      exact hs i (by omega) k hk hname

theorem addTriangularMF_noShadowedMF (s : AutoFuzzy) (varName mfName : Name) (a b c : ℚ)
    (hs : NoShadowedMF s) : NoShadowedMF (addTriangularMF s varName mfName a b c) := by
  unfold addTriangularMF
  cases hv : varIndex s varName with
  | none => exact hs
  | some i0 =>
    obtain ⟨h1, h2, h3⟩ := (varIndex_eq_some s varName i0).1 hv
    simp only []
    split_ifs with hc
    · exact hs
    · intro i hi k hk hname
      simp only [] at hi
      by_cases hi0 : i = i0
      · subst hi0
        exfalso
        have hk0 : k ≠ i := by omega
        simp only [Function.update_same, Function.update_noteq hk0] at hname
        exact h3 k hk (hname.trans h2)
      · simp only [Function.update_noteq hi0] at hname ⊢
        by_cases hk0 : k = i0
        · subst hk0
          simp only [Function.update_same] at hname
          exact hs i hi k hk hname
        · simp only [Function.update_noteq hk0] at hname
          exact hs i hi k hk hname

theorem addTrapezoidalMF_noShadowedMF (s : AutoFuzzy) (varName mfName : Name) (a b c d : ℚ)
    (hs : NoShadowedMF s) : NoShadowedMF (addTrapezoidalMF s varName mfName a b c d) := by
  unfold addTrapezoidalMF
  cases hv : varIndex s varName with
  | none => exact hs
  | some i0 =>
    obtain ⟨h1, h2, h3⟩ := (varIndex_eq_some s varName i0).1 hv
    simp only []
    split_ifs with hc
    · exact hs
    · intro i hi k hk hname
      simp only [] at hi
      by_cases hi0 : i = i0
      · subst hi0
        exfalso
        have hk0 : k ≠ i := by omega
        simp only [Function.update_same, Function.update_noteq hk0] at hname
        exact h3 k hk (hname.trans h2)
      · simp only [Function.update_noteq hi0] at hname ⊢
        by_cases hk0 : k = i0
        · subst hk0
          simp only [Function.update_same] at hname
          exact hs i hi k hk hname
        · simp only [Function.update_noteq hk0] at hname
          exact hs i hi k hk hname

theorem addRule_vars (s : AutoFuzzy) (ifVar ifMF thenVar thenMF : Name) :
    (addRule s ifVar ifMF thenVar thenMF).vars = s.vars ∧
    (addRule s ifVar ifMF thenVar thenMF).varCount = s.varCount := by
  unfold addRule
  split_ifs with hc
  · exact ⟨rfl, rfl⟩
  · simp only []
    split
    · exact ⟨rfl, rfl⟩
    · exact ⟨rfl, rfl⟩

theorem addRule_noShadowedMF (s : AutoFuzzy) (ifVar ifMF thenVar thenMF : Name)
    (hs : NoShadowedMF s) : NoShadowedMF (addRule s ifVar ifMF thenVar thenMF) := by
  obtain ⟨h1, h2⟩ := addRule_vars s ifVar ifMF thenVar thenMF
  unfold NoShadowedMF
  rw [h1, h2]
  exact hs

theorem reachable_noShadowedMF (s : AutoFuzzy) (h : Reachable s) : NoShadowedMF s := by
  induction h with
  | construct mem => exact fun i hi => absurd hi (Nat.not_lt_zero i)
  | addInput s name min max _ ih => exact addInput_noShadowedMF s name min max ih
  | addOutput s name min max _ ih => exact addOutput_noShadowedMF s name min max ih
  | addTriangularMF s v m a b c _ ih => exact addTriangularMF_noShadowedMF s v m a b c ih
  | addTrapezoidalMF s v m a b c d _ ih => exact addTrapezoidalMF_noShadowedMF s v m a b c d ih
  | addRule s a b c d _ ih => exact addRule_noShadowedMF s a b c d ih
  | autoOptimize s it rand _ ih =>
    exact NoShadowedMF.of_sameLayout (autoOptimize_sameLayout s it rand) ih

/-- The state `shadowedT` is produced by no sequence of the public operations. -/
theorem shadowedT_not_reachable : ¬ Reachable shadowedT :=
  fun h => absurd (reachable_noShadowedMF shadowedT h) (by decide)

/-- The engine `twoNamedT` is produced by the public operations. -/
theorem twoNamedT_reachable : Reachable twoNamedT :=
  Reachable.addTriangularMF _ "F".toList "Low".toList 0 0 50
    (Reachable.addOutput _ "F".toList 0 100
      (Reachable.addTriangularMF _ "T".toList "Cold".toList 0 0 20
        (Reachable.addInput _ "T".toList 0 40
          (Reachable.addInput _ "T".toList 0 40 (Reachable.construct blank)))))

/-- Remark on states that no sequence of calls produces: in the state `shadowedT` the
name `T` resolves (first match) to variable 0, which has no function named `Cold`; yet
`addRule` finds `Cold` in the later variable 1 of the same name and registers a rule.
The engine cannot be in this state (`shadowedT_not_reachable`). -/
theorem addRule_on_shadowedT :
    varIndex shadowedT "T".toList = some 0 ∧
    mfIndex (shadowedT.vars 0) "Cold".toList = none ∧
    shadowedT.ruleCount = 0 ∧
    (addRule shadowedT "T".toList "Cold".toList "F".toList "Low".toList).ruleCount = 1 ∧
    addRule shadowedT "T".toList "Cold".toList "F".toList "Low".toList ≠ shadowedT := by
  refine ⟨by decide, by decide, by decide, by decide, ?_⟩
  intro h
  have h1 : (addRule shadowedT "T".toList "Cold".toList "F".toList "Low".toList).ruleCount
      = shadowedT.ruleCount := by rw [h]
  revert h1
  decide

/-- An unresolved name makes `addRule` a no-op in every state in which no variable
repeating the name of an earlier variable holds a membership function. -/
theorem addRule_noop_of_noShadowedMF (s : AutoFuzzy) (ifVar ifMF thenVar thenMF : Name)
    (hn : NoShadowedMF s)
    (h : s.ruleCount = MAX_RULES ∨
      varIndex s ifVar = none ∨ varIndex s thenVar = none ∨
      (∃ i, varIndex s ifVar = some i ∧ mfIndex (s.vars i) ifMF = none) ∨
      (∃ i, varIndex s thenVar = some i ∧ mfIndex (s.vars i) thenMF = none)) :
    addRule s ifVar ifMF thenVar thenMF = s := by
  rcases h with h | h | h | ⟨i, h1, h2⟩ | ⟨i, h1, h2⟩
  · exact addRule_of_full s _ _ _ _ (le_of_eq h.symm)
  · exact addRule_of_scan_none s _ _ _ _
      (Or.inl (scan_ifVarIndex_none s _ _ _ _ _ ((varIndex_eq_none s ifVar).1 h)))
  · exact addRule_of_scan_none s _ _ _ _
      (Or.inr (Or.inl (scan_thenVarIndex_none s _ _ _ _ _
        ((varIndex_eq_none s thenVar).1 h))))
  · exact addRule_of_scan_none s _ _ _ _
      (Or.inr (Or.inr (Or.inl (scan_ifMFIndex_none s _ _ _ _ _
        (mfIndex_none_of_shadowed s hn ifVar ifMF i h1 h2)))))
  · exact addRule_of_scan_none s _ _ _ _
      (Or.inr (Or.inr (Or.inr (scan_thenMFIndex_none s _ _ _ _ _
        (mfIndex_none_of_shadowed s hn thenVar thenMF i h1 h2)))))

/-- C9: for every engine state (every state the engine can be in: reachable from the
freshly constructed engine by `addInput`, `addOutput`, `addTriangularMF`,
`addTrapezoidalMF`, `addRule` and `autoOptimize` calls) and every four names: if
`ifVar` or `thenVar` equals no registered variable's name, or `ifMF` (respectively
`thenMF`) equals no membership-function name within the variable that `ifVar`
(respectively `thenVar`) resolves to, resolution being first match by linear scan, or
`ruleCount` is already 50, then `addRule` leaves `ruleCount` and every stored rule (the
whole engine state) unchanged. -/
theorem addRule_unresolved_noop (s : AutoFuzzy) (ifVar ifMF thenVar thenMF : Name)
    (hs : Reachable s)
    (h : s.ruleCount = MAX_RULES ∨
      varIndex s ifVar = none ∨ varIndex s thenVar = none ∨
      (∃ i, varIndex s ifVar = some i ∧ mfIndex (s.vars i) ifMF = none) ∨
      (∃ i, varIndex s thenVar = some i ∧ mfIndex (s.vars i) thenMF = none)) :
    addRule s ifVar ifMF thenVar thenMF = s :=
  addRule_noop_of_noShadowedMF s ifVar ifMF thenVar thenMF (reachable_noShadowedMF s hs) h

/-- In the reachable engine `twoNamedT`, `T` resolves to variable 0, which has no
function named `Hot`; `addRule("T", "Hot", "F", "Low")` changes nothing. -/
theorem addRule_unresolved_noop_witness :
    (∃ i, varIndex twoNamedT "T".toList = some i ∧
      mfIndex (twoNamedT.vars i) "Hot".toList = none) ∧
    addRule twoNamedT "T".toList "Hot".toList "F".toList "Low".toList = twoNamedT :=
  have h : ∃ i, varIndex twoNamedT "T".toList = some i ∧
      mfIndex (twoNamedT.vars i) "Hot".toList = none := ⟨0, by decide, by decide⟩
  ⟨h, addRule_unresolved_noop twoNamedT "T".toList "Hot".toList "F".toList "Low".toList
    twoNamedT_reachable (Or.inr (Or.inr (Or.inr (Or.inl h))))⟩

/-- C10 at a failing input. In the reachable engine `twoNamedT` the rule store is not
full and all four names of `addRule("T", "Cold", "F", "Low")` resolve by first match:
`T` to variable 0 and `Cold` to its function 0, `F` to variable 2 and `Low` to its
function 0. `addRule` appends exactly one rule, but its `ifVar` is 1 - the last, not the
first, variable named `T` - paired with the function index 0 found in variable 0;
variable 1 has no membership function at all. -/
theorem addRule_duplicate_variable_last_match :
    twoNamedT.ruleCount < MAX_RULES ∧
    varIndex twoNamedT "T".toList = some 0 ∧
    mfIndex (twoNamedT.vars 0) "Cold".toList = some 0 ∧
    varIndex twoNamedT "F".toList = some 2 ∧
    mfIndex (twoNamedT.vars 2) "Low".toList = some 0 ∧
    (addRule twoNamedT "T".toList "Cold".toList "F".toList "Low".toList).ruleCount
      = twoNamedT.ruleCount + 1 ∧
    (addRule twoNamedT "T".toList "Cold".toList "F".toList "Low".toList).rules
      twoNamedT.ruleCount = ⟨1, 0, 2, 0⟩ ∧
    (twoNamedT.vars 1).mfCount = 0 := by
  decide

/-! ## Registration: effect, capacity and frame -/

theorem addTriangularMF_of_none (s : AutoFuzzy) (varName mfName : Name) (a b c : ℚ)
    (h : varIndex s varName = none) : addTriangularMF s varName mfName a b c = s := by
  unfold addTriangularMF
  rw [h]

theorem addTrapezoidalMF_of_none (s : AutoFuzzy) (varName mfName : Name) (a b c d : ℚ)
    (h : varIndex s varName = none) : addTrapezoidalMF s varName mfName a b c d = s := by
  unfold addTrapezoidalMF
  rw [h]

theorem addTriangularMF_of_full (s : AutoFuzzy) (varName mfName : Name) (a b c : ℚ) (i : Nat)
    (h : varIndex s varName = some i) (hf : MAX_MEMBERSHIP_FUNCTIONS ≤ (s.vars i).mfCount) :
    addTriangularMF s varName mfName a b c = s := by
  have hf1 : (s.vars i).mfCount ≥ MAX_MEMBERSHIP_FUNCTIONS := hf
  unfold addTriangularMF
  rw [h]
  simp only [if_pos hf1]

theorem addTrapezoidalMF_of_full (s : AutoFuzzy) (varName mfName : Name) (a b c d : ℚ)
    (i : Nat) (h : varIndex s varName = some i)
    (hf : MAX_MEMBERSHIP_FUNCTIONS ≤ (s.vars i).mfCount) :
    addTrapezoidalMF s varName mfName a b c d = s := by
  have hf1 : (s.vars i).mfCount ≥ MAX_MEMBERSHIP_FUNCTIONS := hf
  unfold addTrapezoidalMF
  rw [h]
  simp only [if_pos hf1]

theorem addTriangularMF_of_room (s : AutoFuzzy) (varName mfName : Name) (a b c : ℚ) (i : Nat)
    (h : varIndex s varName = some i) (hf : (s.vars i).mfCount < MAX_MEMBERSHIP_FUNCTIONS) :
    addTriangularMF s varName mfName a b c =
      { s with
        vars := Function.update s.vars i
          { s.vars i with
            mfs := Function.update (s.vars i).mfs (s.vars i).mfCount
              { (s.vars i).mfs (s.vars i).mfCount with
                name := mfName.take 19, type := 0,
                params := Function.update (Function.update (Function.update
                  ((s.vars i).mfs (s.vars i).mfCount).params 0 a) 1 b) 2 c }
            mfCount := (s.vars i).mfCount + 1 } } := by
  have hf1 : ¬ (s.vars i).mfCount ≥ MAX_MEMBERSHIP_FUNCTIONS := not_le.2 hf
  unfold addTriangularMF
  rw [h]
  simp only [if_neg hf1]

theorem addTrapezoidalMF_of_room (s : AutoFuzzy) (varName mfName : Name) (a b c d : ℚ)
    (i : Nat) (h : varIndex s varName = some i)
    (hf : (s.vars i).mfCount < MAX_MEMBERSHIP_FUNCTIONS) :
    addTrapezoidalMF s varName mfName a b c d =
      { s with
        vars := Function.update s.vars i
          { s.vars i with
            mfs := Function.update (s.vars i).mfs (s.vars i).mfCount
              { (s.vars i).mfs (s.vars i).mfCount with
                name := mfName.take 19, type := 1,
                params := Function.update (Function.update (Function.update (Function.update
                  ((s.vars i).mfs (s.vars i).mfCount).params 0 a) 1 b) 2 c) 3 d }
            mfCount := (s.vars i).mfCount + 1 } } := by
  have hf1 : ¬ (s.vars i).mfCount ≥ MAX_MEMBERSHIP_FUNCTIONS := not_le.2 hf
  unfold addTrapezoidalMF
  rw [h]
  simp only [if_neg hf1]

theorem addTriangularMF_appended (s : AutoFuzzy) (varName mfName : Name) (a b c : ℚ) (i : Nat)
    (h : varIndex s varName = some i) (hf : (s.vars i).mfCount < MAX_MEMBERSHIP_FUNCTIONS) :
    MFAppended s (addTriangularMF s varName mfName a b c) i (mfName.take 19) 0 [a, b, c] := by
  rw [addTriangularMF_of_room s varName mfName a b c i h hf]
  refine ⟨rfl, rfl, rfl, ?_, ?_, ?_, ?_, ?_, ?_, ?_, ?_, ?_, ?_, ?_⟩
  · intro x hx
    simp only [Function.update_noteq hx]
  all_goals simp only [Function.update_same]
  · intro x hx
    simp only [Function.update_noteq hx]
  · intro k hk
    simp only [List.length_cons, List.length_nil] at hk
    interval_cases k <;> simp [Function.update]
  · intro k hk
    simp only [List.length_cons, List.length_nil] at hk
    have h0 : k ≠ 0 := by omega
    have h1 : k ≠ 1 := by omega
    have h2 : k ≠ 2 := by omega
    simp only [Function.update_noteq h0, Function.update_noteq h1, Function.update_noteq h2]

theorem addTrapezoidalMF_appended (s : AutoFuzzy) (varName mfName : Name) (a b c d : ℚ)
    (i : Nat) (h : varIndex s varName = some i)
    (hf : (s.vars i).mfCount < MAX_MEMBERSHIP_FUNCTIONS) :
    MFAppended s (addTrapezoidalMF s varName mfName a b c d) i (mfName.take 19) 1
      [a, b, c, d] := by
  rw [addTrapezoidalMF_of_room s varName mfName a b c d i h hf]
  refine ⟨rfl, rfl, rfl, ?_, ?_, ?_, ?_, ?_, ?_, ?_, ?_, ?_, ?_, ?_⟩
  · intro x hx
    simp only [Function.update_noteq hx]
  all_goals simp only [Function.update_same]
  · intro x hx
    simp only [Function.update_noteq hx]
  · intro k hk
    simp only [List.length_cons, List.length_nil] at hk
    interval_cases k <;> simp [Function.update]
  · intro k hk
    simp only [List.length_cons, List.length_nil] at hk
    have h0 : k ≠ 0 := by omega
    have h1 : k ≠ 1 := by omega
    have h2 : k ≠ 2 := by omega
    have h3 : k ≠ 3 := by omega
    simp only [Function.update_noteq h0, Function.update_noteq h1, Function.update_noteq h2,
      Function.update_noteq h3]

theorem addInput_of_full (s : AutoFuzzy) (name : Name) (min max : ℚ)
    (h : MAX_VARS ≤ s.varCount) : addInput s name min max = s := by
  have h1 : s.varCount ≥ MAX_VARS := h
  rw [addInput, if_pos h1]

theorem addOutput_of_full (s : AutoFuzzy) (name : Name) (min max : ℚ)
    (h : MAX_VARS ≤ s.varCount) : addOutput s name min max = s := by
  have h1 : s.varCount ≥ MAX_VARS := h
  rw [addOutput, if_pos h1]

theorem addInput_of_room (s : AutoFuzzy) (name : Name) (min max : ℚ)
    (h : s.varCount < MAX_VARS) :
    addInput s name min max =
      { s with
        vars := Function.update s.vars s.varCount
          { s.vars s.varCount with
            name := name.take 19, isInput := true, min := min, max := max, mfCount := 0 }
        varCount := s.varCount + 1 } := by
  have h1 : ¬ s.varCount ≥ MAX_VARS := not_le.2 h
  rw [addInput, if_neg h1]

theorem addOutput_of_room (s : AutoFuzzy) (name : Name) (min max : ℚ)
    (h : s.varCount < MAX_VARS) :
    addOutput s name min max =
      { s with
        vars := Function.update s.vars s.varCount
          { s.vars s.varCount with
            name := name.take 19, isInput := false, min := min, max := max, mfCount := 0 }
        varCount := s.varCount + 1 } := by
  have h1 : ¬ s.varCount ≥ MAX_VARS := not_le.2 h
  rw [addOutput, if_neg h1]

theorem addRule_cases (s : AutoFuzzy) (ifVar ifMF thenVar thenMF : Name) :
    addRule s ifVar ifMF thenVar thenMF = s ∨
    (s.ruleCount < MAX_RULES ∧ ∃ iv im tv tm,
      (addRuleScan s ifVar ifMF thenVar thenMF).ifVarIndex = some iv ∧
      (addRuleScan s ifVar ifMF thenVar thenMF).ifMFIndex = some im ∧
      (addRuleScan s ifVar ifMF thenVar thenMF).thenVarIndex = some tv ∧
      (addRuleScan s ifVar ifMF thenVar thenMF).thenMFIndex = some tm ∧
      addRule s ifVar ifMF thenVar thenMF =
        { s with
          rules := Function.update s.rules s.ruleCount ⟨iv, im, tv, tm⟩
          ruleCount := s.ruleCount + 1 }) := by
  unfold addRule
  split_ifs with hc
  · exact Or.inl rfl
  · simp only []
    split
    · rename_i iv tv im tm h1 h2 h3 h4
      exact Or.inr ⟨not_le.1 hc, iv, im, tv, tm, h1, h3, h2, h4, rfl⟩
    · exact Or.inl rfl

theorem extends_refl (s : AutoFuzzy) : Extends s s :=
  ⟨le_refl _, le_refl _, fun _ _ => rfl,
    fun _ _ => ⟨rfl, rfl, rfl, rfl, le_refl _, fun _ _ => rfl⟩⟩

theorem addInput_extends (s : AutoFuzzy) (name : Name) (min max : ℚ) :
    Extends s (addInput s name min max) := by
  rcases Nat.lt_or_ge s.varCount MAX_VARS with h | h
  · rw [addInput_of_room s name min max h]
    refine ⟨Nat.le_succ _, le_refl _, fun _ _ => rfl, fun i hi => ?_⟩
    have hne : i ≠ s.varCount := Nat.ne_of_lt hi
    simp [Function.update_noteq hne]
  · rw [addInput_of_full s name min max h]
    exact extends_refl s

theorem addOutput_extends (s : AutoFuzzy) (name : Name) (min max : ℚ) :
    Extends s (addOutput s name min max) := by
  rcases Nat.lt_or_ge s.varCount MAX_VARS with h | h
  · rw [addOutput_of_room s name min max h]
    refine ⟨Nat.le_succ _, le_refl _, fun _ _ => rfl, fun i hi => ?_⟩
    have hne : i ≠ s.varCount := Nat.ne_of_lt hi
    simp [Function.update_noteq hne]
  · rw [addOutput_of_full s name min max h]
    exact extends_refl s

theorem mfAppended_extends {s t : AutoFuzzy} {i : Nat} {name : Name} {type : Nat}
    {ps : List ℚ} (h : MFAppended s t i name type ps) : Extends s t := by
  obtain ⟨h1, h2, h3, h4, h5, h6, h7, h8, h9, h10, -⟩ := h
  refine ⟨le_of_eq h1.symm, le_of_eq h2.symm, fun r _ => by rw [h3], fun a _ => ?_⟩
  by_cases ha : a = i
  · subst ha
    refine ⟨h5, h6, h7, h8, by omega, fun j hj => h10 j (Nat.ne_of_lt hj)⟩
  · rw [h4 a ha]
    exact ⟨rfl, rfl, rfl, rfl, le_refl _, fun _ _ => rfl⟩

theorem addTriangularMF_extends (s : AutoFuzzy) (varName mfName : Name) (a b c : ℚ) :
    Extends s (addTriangularMF s varName mfName a b c) := by
  cases hv : varIndex s varName with
  | none => rw [addTriangularMF_of_none s varName mfName a b c hv]; exact extends_refl s
  | some i =>
    rcases Nat.lt_or_ge (s.vars i).mfCount MAX_MEMBERSHIP_FUNCTIONS with h | h
    · exact mfAppended_extends (addTriangularMF_appended s varName mfName a b c i hv h)
    · rw [addTriangularMF_of_full s varName mfName a b c i hv h]; exact extends_refl s

theorem addTrapezoidalMF_extends (s : AutoFuzzy) (varName mfName : Name) (a b c d : ℚ) :
    Extends s (addTrapezoidalMF s varName mfName a b c d) := by
  cases hv : varIndex s varName with
  | none => rw [addTrapezoidalMF_of_none s varName mfName a b c d hv]; exact extends_refl s
  | some i =>
    rcases Nat.lt_or_ge (s.vars i).mfCount MAX_MEMBERSHIP_FUNCTIONS with h | h
    · exact mfAppended_extends (addTrapezoidalMF_appended s varName mfName a b c d i hv h)
    · rw [addTrapezoidalMF_of_full s varName mfName a b c d i hv h]; exact extends_refl s

theorem addRule_extends (s : AutoFuzzy) (ifVar ifMF thenVar thenMF : Name) :
    Extends s (addRule s ifVar ifMF thenVar thenMF) := by
  rcases addRule_cases s ifVar ifMF thenVar thenMF with h | ⟨-, iv, im, tv, tm, -, -, -, -, h⟩
  · rw [h]; exact extends_refl s
  · rw [h]
    refine ⟨le_refl _, Nat.le_succ _, fun r hr => ?_,
      fun _ _ => ⟨rfl, rfl, rfl, rfl, le_refl _, fun _ _ => rfl⟩⟩
    have hne : r ≠ s.ruleCount := Nat.ne_of_lt hr
    simp only [Function.update_noteq hne]

theorem construct_withinCapacity (mem : AutoFuzzy) : WithinCapacity (construct mem) :=
  ⟨Nat.zero_le _, fun i hi => absurd hi (Nat.not_lt_zero i), Nat.zero_le _⟩

theorem addInput_withinCapacity (s : AutoFuzzy) (name : Name) (min max : ℚ)
    (h : WithinCapacity s) : WithinCapacity (addInput s name min max) := by
  rcases Nat.lt_or_ge s.varCount MAX_VARS with hr | hr
  · rw [addInput_of_room s name min max hr]
    obtain ⟨-, h2, h3⟩ := h
    refine ⟨hr, fun i hi => ?_, h3⟩
    by_cases hne : i = s.varCount
    · subst hne
      simp only [Function.update_same]
      exact Nat.zero_le _
    · simp only [Function.update_noteq hne]
      have hi1 : i < s.varCount + 1 := hi
      exact h2 i (by omega)
  · rw [addInput_of_full s name min max hr]; exact h

theorem addOutput_withinCapacity (s : AutoFuzzy) (name : Name) (min max : ℚ)
    (h : WithinCapacity s) : WithinCapacity (addOutput s name min max) := by
  rcases Nat.lt_or_ge s.varCount MAX_VARS with hr | hr
  · rw [addOutput_of_room s name min max hr]
    obtain ⟨-, h2, h3⟩ := h
    refine ⟨hr, fun i hi => ?_, h3⟩
    by_cases hne : i = s.varCount
    · subst hne
      simp only [Function.update_same]
      exact Nat.zero_le _
    · simp only [Function.update_noteq hne]
      have hi1 : i < s.varCount + 1 := hi
      exact h2 i (by omega)
  · rw [addOutput_of_full s name min max hr]; exact h

theorem mfAppended_withinCapacity {s t : AutoFuzzy} {i : Nat} {name : Name} {type : Nat}
    {ps : List ℚ} (h : MFAppended s t i name type ps)
    (hr : (s.vars i).mfCount < MAX_MEMBERSHIP_FUNCTIONS) (hs : WithinCapacity s) :
    WithinCapacity t := by
  obtain ⟨h1, h2, -, h4, -, -, -, -, h9, -⟩ := h
  obtain ⟨c1, c2, c3⟩ := hs
  refine ⟨h1 ▸ c1, fun a ha => ?_, h2 ▸ c3⟩
  by_cases hai : a = i
  · subst hai
    rw [h9]
    exact hr
  · rw [h4 a hai]
    exact c2 a (h1 ▸ ha)

theorem addTriangularMF_withinCapacity (s : AutoFuzzy) (varName mfName : Name) (a b c : ℚ)
    (h : WithinCapacity s) : WithinCapacity (addTriangularMF s varName mfName a b c) := by
  cases hv : varIndex s varName with
  | none => rw [addTriangularMF_of_none s varName mfName a b c hv]; exact h
  | some i =>
    rcases Nat.lt_or_ge (s.vars i).mfCount MAX_MEMBERSHIP_FUNCTIONS with hr | hr
    · exact mfAppended_withinCapacity (addTriangularMF_appended s varName mfName a b c i hv hr) hr h
    · rw [addTriangularMF_of_full s varName mfName a b c i hv hr]; exact h

theorem addTrapezoidalMF_withinCapacity (s : AutoFuzzy) (varName mfName : Name)
    (a b c d : ℚ) (h : WithinCapacity s) :
    WithinCapacity (addTrapezoidalMF s varName mfName a b c d) := by
  cases hv : varIndex s varName with
  | none => rw [addTrapezoidalMF_of_none s varName mfName a b c d hv]; exact h
  | some i =>
    rcases Nat.lt_or_ge (s.vars i).mfCount MAX_MEMBERSHIP_FUNCTIONS with hr | hr
    · exact mfAppended_withinCapacity (addTrapezoidalMF_appended s varName mfName a b c d i hv hr)
        hr h
    · rw [addTrapezoidalMF_of_full s varName mfName a b c d i hv hr]; exact h

theorem addRule_withinCapacity (s : AutoFuzzy) (ifVar ifMF thenVar thenMF : Name)
    (h : WithinCapacity s) : WithinCapacity (addRule s ifVar ifMF thenVar thenMF) := by
  rcases addRule_cases s ifVar ifMF thenVar thenMF with he | ⟨hr, iv, im, tv, tm, -, -, -, -, he⟩
  · rw [he]; exact h
  · rw [he]
    exact ⟨h.1, h.2.1, hr⟩

theorem withinCapacity_of_sameLayout {s t : AutoFuzzy} (h : SameLayout s t)
    (hs : WithinCapacity s) : WithinCapacity t := by
  obtain ⟨a1, a2, -, a4⟩ := h
  obtain ⟨c1, c2, c3⟩ := hs
  refine ⟨a1 ▸ c1, fun i hi => ?_, a2 ▸ c3⟩
  rw [(a4 i).2.2.2.2.1]
  exact c2 i (a1 ▸ hi)

/-- C11: `addTriangularMF` and `addTrapezoidalMF`, for every engine state and all
arguments. If no registered variable has the name `varName`, or the first registered
variable of that name already holds 5 membership functions (its array is full:
`mfCount ≥ MAX_MEMBERSHIP_FUNCTIONS`), the engine state is unchanged. Otherwise exactly
the first registered variable named `varName` gains one membership function, appended
at index `mfCount`, with the given shape (type 0 or 1), the given params stored verbatim
in order and the name cut to its first 19 characters; its `mfCount` grows by 1; every
other variable, membership function and rule is unchanged. -/
theorem addMembershipFunction_effect (s : AutoFuzzy) (varName mfName : Name)
    (a b c d : ℚ) :
    ((varIndex s varName = none ∨
        ∃ i, varIndex s varName = some i ∧
          MAX_MEMBERSHIP_FUNCTIONS ≤ (s.vars i).mfCount) →
      addTriangularMF s varName mfName a b c = s ∧
      addTrapezoidalMF s varName mfName a b c d = s) ∧
    (∀ i, varIndex s varName = some i → (s.vars i).mfCount < MAX_MEMBERSHIP_FUNCTIONS →
      (i < s.varCount ∧ (s.vars i).name = varName ∧
        ∀ k, k < i → (s.vars k).name ≠ varName) ∧
      MFAppended s (addTriangularMF s varName mfName a b c) i (mfName.take 19) 0
        [a, b, c] ∧
      MFAppended s (addTrapezoidalMF s varName mfName a b c d) i (mfName.take 19) 1
        [a, b, c, d]) := by
  constructor
  · rintro (h | ⟨i, h, hf⟩)
    · exact ⟨addTriangularMF_of_none s varName mfName a b c h,
        addTrapezoidalMF_of_none s varName mfName a b c d h⟩
    · exact ⟨addTriangularMF_of_full s varName mfName a b c i h hf,
        addTrapezoidalMF_of_full s varName mfName a b c d i h hf⟩
  · intro i h hf
    exact ⟨(varIndex_eq_some s varName i).1 h,
      addTriangularMF_appended s varName mfName a b c i h hf,
      addTrapezoidalMF_appended s varName mfName a b c d i h hf⟩

/-- Three calls: on the fresh engine (no variable `X`) nothing changes; on `crowded`
(variable `X` holds 5 functions) nothing changes; on `oneVariable` the out-of-order
params `(50, -3, 7)` are stored verbatim, under the name cut to 19 characters. -/
theorem addMembershipFunction_effect_witness :
    addTriangularMF (construct blank) "X".toList "Bad".toList 50 (-3) 7 = construct blank ∧
    addTrapezoidalMF crowded "X".toList "F".toList 1 2 3 4 = crowded ∧
    MFAppended oneVariable (addTriangularMF oneVariable "X".toList longName 50 (-3) 7) 0
      "abcdefghijklmnopqrs".toList 0 [50, -3, 7] :=
  ⟨((addMembershipFunction_effect (construct blank) "X".toList "Bad".toList 50 (-3) 7 0).1
      (Or.inl (by decide))).1,
   ((addMembershipFunction_effect crowded "X".toList "F".toList 1 2 3 4).1
      (Or.inr ⟨0, by decide, by decide⟩)).2,
   ((addMembershipFunction_effect oneVariable "X".toList longName 50 (-3) 7 0).2 0
      (by decide) (by decide)).2.1⟩

/-- C12: for every engine state with `varCount = 10` (the capacity `MAX_VARS`) and every
name, min and max, `addInput` and `addOutput` leave the engine state unchanged:
`varCount` stays 10, the stored variables are the same, and a name that matched no
registered variable before the call still matches none after it. -/
theorem addVariable_at_capacity (s : AutoFuzzy) (name : Name) (min max : ℚ)
    (h : s.varCount = MAX_VARS) :
    addInput s name min max = s ∧ addOutput s name min max = s ∧
    (addInput s name min max).varCount = 10 ∧ (addOutput s name min max).varCount = 10 ∧
    (addInput s name min max).vars = s.vars ∧ (addOutput s name min max).vars = s.vars ∧
    ∀ n : Name, varIndex s n = none →
      varIndex (addInput s name min max) n = none ∧
      varIndex (addOutput s name min max) n = none := by
  have hi := addInput_of_full s name min max (le_of_eq h.symm)
  have ho := addOutput_of_full s name min max (le_of_eq h.symm)
  rw [hi, ho]
  exact ⟨rfl, rfl, h, h, rfl, rfl, fun n hn => ⟨hn, hn⟩⟩

/-- The engine `tenVariables` is at capacity; adding `Extra` as input or output changes
nothing, and `Extra` is found neither before nor after. -/
theorem addVariable_at_capacity_witness :
    tenVariables.varCount = MAX_VARS ∧
    addInput tenVariables "Extra".toList 0 1 = tenVariables ∧
    addOutput tenVariables "Extra".toList 0 1 = tenVariables ∧
    varIndex tenVariables "Extra".toList = none ∧
    varIndex (addInput tenVariables "Extra".toList 0 1) "Extra".toList = none :=
  have h := addVariable_at_capacity tenVariables "Extra".toList 0 1 (by decide)
  ⟨by decide, h.1, h.2.1, by decide,
    (h.2.2.2.2.2.2 "Extra".toList (by decide)).1⟩

theorem reachable_withinCapacity {s : AutoFuzzy} (h : Reachable s) : WithinCapacity s := by
  induction h with
  | construct mem => exact construct_withinCapacity mem
  | addInput s name min max _ ih => exact addInput_withinCapacity s name min max ih
  | addOutput s name min max _ ih => exact addOutput_withinCapacity s name min max ih
  | addTriangularMF s v m a b c _ ih => exact addTriangularMF_withinCapacity s v m a b c ih
  | addTrapezoidalMF s v m a b c d _ ih =>
    exact addTrapezoidalMF_withinCapacity s v m a b c d ih
  | addRule s a b c d _ ih => exact addRule_withinCapacity s a b c d ih
  | autoOptimize s it rand _ ih =>
    exact withinCapacity_of_sameLayout (autoOptimize_sameLayout s it rand) ih

/-- The engine `crowded` is produced by the public operations. -/
theorem crowded_reachable : Reachable crowded :=
  Reachable.addTrapezoidalMF _ "X".toList "E".toList 5 6 7 8
    (Reachable.addTrapezoidalMF _ "X".toList "D".toList 3 4 5 6
      (Reachable.addTriangularMF _ "X".toList "C".toList 2 3 4
        (Reachable.addTriangularMF _ "X".toList "B".toList 1 2 3
          (Reachable.addTriangularMF _ "X".toList "A".toList 0 1 2
            (Reachable.addInput _ "X".toList 0 10 (Reachable.construct blank))))))

/-- C13, the capacity invariant: in every engine state reachable from the freshly
constructed engine by any sequence of `addInput`, `addOutput`, `addTriangularMF`,
`addTrapezoidalMF`, `addRule` and `autoOptimize` calls, `varCount ≤ 10`, every registered
variable's `mfCount ≤ 5`, and `ruleCount ≤ 50`. -/
theorem capacity_invariant (s : AutoFuzzy) (h : Reachable s) :
    s.varCount ≤ 10 ∧ (∀ i, i < s.varCount → (s.vars i).mfCount ≤ 5) ∧ s.ruleCount ≤ 50 :=
  reachable_withinCapacity h

/-- After a sixth `addTriangularMF` on the variable `X` of `crowded`, the variable still
has 5 functions and all bounds hold. -/
theorem capacity_invariant_witness :
    ((addTriangularMF crowded "X".toList "F".toList 1 2 3).vars 0).mfCount = 5 ∧
    (addTriangularMF crowded "X".toList "F".toList 1 2 3).varCount ≤ 10 ∧
    (∀ i, i < (addTriangularMF crowded "X".toList "F".toList 1 2 3).varCount →
      ((addTriangularMF crowded "X".toList "F".toList 1 2 3).vars i).mfCount ≤ 5) ∧
    (addTriangularMF crowded "X".toList "F".toList 1 2 3).ruleCount ≤ 50 :=
  ⟨by decide,
    capacity_invariant (addTriangularMF crowded "X".toList "F".toList 1 2 3)
      (Reachable.addTriangularMF crowded "X".toList "F".toList 1 2 3 crowded_reachable)⟩

/-- C14, registration is append-only: for each of `addInput`, `addOutput`,
`addTriangularMF`, `addTrapezoidalMF` and `addRule`, every engine state and all
arguments, every variable, membership function and rule stored before the call is stored
after it at the same index with the same content (variable name, role, min, max; the
whole membership function: name, shape, params; the rule's four indices), and
`varCount`, every `mfCount` and `ruleCount` do not decrease. -/
theorem registration_append_only (s : AutoFuzzy) (name varName mfName : Name)
    (ifVar ifMF thenVar thenMF : Name) (min max a b c d : ℚ) :
    Extends s (addInput s name min max) ∧
    Extends s (addOutput s name min max) ∧
    Extends s (addTriangularMF s varName mfName a b c) ∧
    Extends s (addTrapezoidalMF s varName mfName a b c d) ∧
    Extends s (addRule s ifVar ifMF thenVar thenMF) :=
  ⟨addInput_extends s name min max, addOutput_extends s name min max,
    addTriangularMF_extends s varName mfName a b c,
    addTrapezoidalMF_extends s varName mfName a b c d,
    addRule_extends s ifVar ifMF thenVar thenMF⟩

/-! ## Rule references and the array reads of `evaluate` -/

theorem scan_ifVarIndex_some (s : AutoFuzzy) (ifVar ifMF thenVar thenMF : Name) (n iv : Nat)
    (h : ((List.range n).foldl (addRuleStep s ifVar ifMF thenVar thenMF)
      ⟨none, none, none, none⟩).ifVarIndex = some iv) :
    iv < n ∧ (s.vars iv).name = ifVar := by
  induction n with
  | zero => cases h
  | succ n ih =>
    rw [List.range_succ, List.foldl_append, List.foldl_cons, List.foldl_nil,
      addRuleStep_ifVarIndex] at h
    split_ifs at h with hn
    · have e : n = iv := Option.some.inj h
      subst e
      exact ⟨Nat.lt_succ_self _, hn⟩
    · exact ⟨Nat.lt_succ_of_lt (ih h).1, (ih h).2⟩

theorem scan_thenVarIndex_some (s : AutoFuzzy) (ifVar ifMF thenVar thenMF : Name)
    (n tv : Nat)
    (h : ((List.range n).foldl (addRuleStep s ifVar ifMF thenVar thenMF)
      ⟨none, none, none, none⟩).thenVarIndex = some tv) :
    tv < n ∧ (s.vars tv).name = thenVar := by
  induction n with
  | zero => cases h
  | succ n ih =>
    rw [List.range_succ, List.foldl_append, List.foldl_cons, List.foldl_nil,
      addRuleStep_thenVarIndex] at h
    split_ifs at h with hn
    · have e : n = tv := Option.some.inj h
      subst e
      exact ⟨Nat.lt_succ_self _, hn⟩
    · exact ⟨Nat.lt_succ_of_lt (ih h).1, (ih h).2⟩

theorem scan_ifMFIndex_some (s : AutoFuzzy) (ifVar ifMF thenVar thenMF : Name) (n im : Nat)
    (h : ((List.range n).foldl (addRuleStep s ifVar ifMF thenVar thenMF)
      ⟨none, none, none, none⟩).ifMFIndex = some im) :
    ∃ i, i < n ∧ (s.vars i).name = ifVar ∧ mfIndex (s.vars i) ifMF = some im := by
  induction n with
  | zero => cases h
  | succ n ih =>
    rw [List.range_succ, List.foldl_append, List.foldl_cons, List.foldl_nil,
      addRuleStep_ifMFIndex] at h
    split_ifs at h with hn
    · cases hm : mfIndex (s.vars n) ifMF with
      | some j =>
        rw [hm] at h
        have e : j = im := Option.some.inj h
        subst e
        exact ⟨n, Nat.lt_succ_self _, hn, hm⟩
      | none =>
        rw [hm] at h
        obtain ⟨i, h1, h2, h3⟩ := ih h
        exact ⟨i, Nat.lt_succ_of_lt h1, h2, h3⟩
    · obtain ⟨i, h1, h2, h3⟩ := ih h
      exact ⟨i, Nat.lt_succ_of_lt h1, h2, h3⟩

theorem scan_thenMFIndex_some (s : AutoFuzzy) (ifVar ifMF thenVar thenMF : Name)
    (n tm : Nat)
    (h : ((List.range n).foldl (addRuleStep s ifVar ifMF thenVar thenMF)
      ⟨none, none, none, none⟩).thenMFIndex = some tm) :
    ∃ i, i < n ∧ (s.vars i).name = thenVar ∧ mfIndex (s.vars i) thenMF = some tm := by
  induction n with
  | zero => cases h
  | succ n ih =>
    rw [List.range_succ, List.foldl_append, List.foldl_cons, List.foldl_nil,
      addRuleStep_thenMFIndex] at h
    split_ifs at h with hn
    · cases hm : mfIndex (s.vars n) thenMF with
      | some j =>
        rw [hm] at h
        have e : j = tm := Option.some.inj h
        subst e
        exact ⟨n, Nat.lt_succ_self _, hn, hm⟩
      | none =>
        rw [hm] at h
        obtain ⟨i, h1, h2, h3⟩ := ih h
        exact ⟨i, Nat.lt_succ_of_lt h1, h2, h3⟩
    · obtain ⟨i, h1, h2, h3⟩ := ih h
      exact ⟨i, Nat.lt_succ_of_lt h1, h2, h3⟩

theorem namesDistinct_eq_of_name_eq {s : AutoFuzzy} (h : NamesDistinct s) {i k : Nat}
    (hi : i < s.varCount) (hk : k < s.varCount) (he : (s.vars i).name = (s.vars k).name) :
    i = k := by
  rcases Nat.lt_trichotomy i k with hlt | heq | hgt
  · exact absurd he (h k hk i hlt)
  · exact heq
  · exact absurd he.symm (h i hi k hgt)

theorem namesDistinct_of_extends {s t : AutoFuzzy} (h : Extends s t) (ht : NamesDistinct t) :
    NamesDistinct s := by
  obtain ⟨h1, -, -, h4⟩ := h
  intro i hi k hk
  have e1 := (h4 i hi).1
  have e2 := (h4 k (lt_trans hk hi)).1
  rw [← e1, ← e2]
  exact ht i (lt_of_lt_of_le hi h1) k hk

theorem ruleValid_of_extends {s t : AutoFuzzy} (h : Extends s t) {r : Rule}
    (hr : RuleValid s r) : RuleValid t r := by
  obtain ⟨h1, -, -, h4⟩ := h
  obtain ⟨r1, r2, r3, r4⟩ := hr
  exact ⟨lt_of_lt_of_le r1 h1, lt_of_lt_of_le r2 h1,
    lt_of_lt_of_le r3 (h4 _ r1).2.2.2.2.1, lt_of_lt_of_le r4 (h4 _ r2).2.2.2.2.1⟩

theorem rulesValid_of_extends {s t : AutoFuzzy} (h : Extends s t)
    (hc : t.ruleCount = s.ruleCount) (hs : RulesValid s) : RulesValid t := by
  intro r hr
  rw [hc] at hr
  rw [h.2.2.1 r hr]
  exact ruleValid_of_extends h (hs r hr)

theorem addInput_ruleCount (s : AutoFuzzy) (name : Name) (min max : ℚ) :
    (addInput s name min max).ruleCount = s.ruleCount := by
  unfold addInput; split_ifs <;> rfl

theorem addOutput_ruleCount (s : AutoFuzzy) (name : Name) (min max : ℚ) :
    (addOutput s name min max).ruleCount = s.ruleCount := by
  unfold addOutput; split_ifs <;> rfl

theorem addTriangularMF_ruleCount (s : AutoFuzzy) (varName mfName : Name) (a b c : ℚ) :
    (addTriangularMF s varName mfName a b c).ruleCount = s.ruleCount := by
  unfold addTriangularMF
  split
  · rfl
  · simp only []; split_ifs <;> rfl

theorem addTrapezoidalMF_ruleCount (s : AutoFuzzy) (varName mfName : Name) (a b c d : ℚ) :
    (addTrapezoidalMF s varName mfName a b c d).ruleCount = s.ruleCount := by
  unfold addTrapezoidalMF
  split
  · rfl
  · simp only []; split_ifs <;> rfl

theorem addRule_rulesValid (s : AutoFuzzy) (ifVar ifMF thenVar thenMF : Name)
    (hd : NamesDistinct s) (hs : RulesValid s) :
    RulesValid (addRule s ifVar ifMF thenVar thenMF) := by
  rcases addRule_cases s ifVar ifMF thenVar thenMF with
    he | ⟨-, iv, im, tv, tm, h1, h2, h3, h4, he⟩
  · rw [he]; exact hs
  · rw [he]
    obtain ⟨a1, a2⟩ := scan_ifVarIndex_some s _ _ _ _ _ _ h1
    obtain ⟨b1, b2⟩ := scan_thenVarIndex_some s _ _ _ _ _ _ h3
    obtain ⟨i, c1, c2, c3⟩ := scan_ifMFIndex_some s _ _ _ _ _ _ h2
    obtain ⟨k, d1, d2, d3⟩ := scan_thenMFIndex_some s _ _ _ _ _ _ h4
    have ei : i = iv := namesDistinct_eq_of_name_eq hd c1 a1 (c2.trans a2.symm)
    have ek : k = tv := namesDistinct_eq_of_name_eq hd d1 b1 (d2.trans b2.symm)
    subst ei ek
    have hnew : RuleValid s ⟨i, im, k, tm⟩ :=
      ⟨a1, b1, ((mfIndex_eq_some _ _ _).1 c3).1, ((mfIndex_eq_some _ _ _).1 d3).1⟩
    intro r hr
    have hr1 : r < s.ruleCount + 1 := hr
    by_cases hrc : r = s.ruleCount
    · subst hrc
      simp only [Function.update_same]
      exact hnew
    · simp only [Function.update_noteq hrc]
      exact hs r (by omega)

theorem rulesValid_of_sameLayout {s t : AutoFuzzy} (h : SameLayout s t)
    (hs : RulesValid s) : RulesValid t := by
  obtain ⟨a1, a2, a3, a4⟩ := h
  intro r hr
  rw [a2] at hr
  obtain ⟨r1, r2, r3, r4⟩ := hs r hr
  unfold RuleValid
  rw [a3, a1, (a4 _).2.2.2.2.1, (a4 _).2.2.2.2.1]
  exact ⟨r1, r2, r3, r4⟩

theorem namesDistinct_of_sameLayout {s t : AutoFuzzy} (h : SameLayout s t)
    (ht : NamesDistinct t) : NamesDistinct s := by
  obtain ⟨a1, -, -, a4⟩ := h
  intro i hi k hk
  rw [← (a4 i).1, ← (a4 k).1]
  exact ht i (a1.symm ▸ hi) k hk

theorem reachable_rulesValid_of_namesDistinct {s : AutoFuzzy} (h : Reachable s) :
    NamesDistinct s → RulesValid s := by
  induction h with
  | construct mem => exact fun _ r hr => absurd hr (Nat.not_lt_zero r)
  | addInput s name min max _ ih =>
    intro hd
    have he := addInput_extends s name min max
    exact rulesValid_of_extends he (addInput_ruleCount s name min max)
      (ih (namesDistinct_of_extends he hd))
  | addOutput s name min max _ ih =>
    intro hd
    have he := addOutput_extends s name min max
    exact rulesValid_of_extends he (addOutput_ruleCount s name min max)
      (ih (namesDistinct_of_extends he hd))
  | addTriangularMF s v m a b c _ ih =>
    intro hd
    have he := addTriangularMF_extends s v m a b c
    exact rulesValid_of_extends he (addTriangularMF_ruleCount s v m a b c)
      (ih (namesDistinct_of_extends he hd))
  | addTrapezoidalMF s v m a b c d _ ih =>
    intro hd
    have he := addTrapezoidalMF_extends s v m a b c d
    exact rulesValid_of_extends he (addTrapezoidalMF_ruleCount s v m a b c d)
      (ih (namesDistinct_of_extends he hd))
  | addRule s a b c d _ ih =>
    intro hd
    have hd0 : NamesDistinct s := namesDistinct_of_extends (addRule_extends s a b c d) hd
    exact addRule_rulesValid s a b c d hd0 (ih hd0)
  | autoOptimize s it rand _ ih =>
    intro hd
    have hl := autoOptimize_sameLayout s it rand
    exact rulesValid_of_sameLayout hl (ih (namesDistinct_of_sameLayout hl hd))

/-- The scenario engine `fanControl` is produced by the public operations. -/
theorem fanControl_reachable : Reachable fanControl :=
  Reachable.addRule _ "Temperature".toList "Hot".toList "FanSpeed".toList "High".toList
    (Reachable.addRule _ "Temperature".toList "Cold".toList "FanSpeed".toList "Low".toList
      (Reachable.addTriangularMF _ "FanSpeed".toList "High".toList 50 100 100
        (Reachable.addTriangularMF _ "FanSpeed".toList "Low".toList 0 0 50
          (Reachable.addOutput _ "FanSpeed".toList 0 100
            (Reachable.addTriangularMF _ "Temperature".toList "Hot".toList 20 40 40
              (Reachable.addTriangularMF _ "Temperature".toList "Cold".toList 0 0 20
                (Reachable.addInput _ "Temperature".toList 0 40
                  (Reachable.construct blank))))))))

/-- C15 at a failing input. The engine `twoNamedTWithRule` is reachable: it is built by
`addInput("T")`, `addInput("T")`, `addTriangularMF("T", "Cold")`, `addOutput("F")`,
`addTriangularMF("F", "Low")` and `addRule("T", "Cold", "F", "Low")`. Its only rule is
`(ifVar, ifMF, thenVar, thenMF) = (1, 0, 2, 0)`, and variable 1 has no membership
function, so `ifMF < mfCount` of variable `ifVar` fails: the rule refers to an
unregistered function. -/
theorem rule_reference_dangling :
    Reachable twoNamedTWithRule ∧
    twoNamedTWithRule.ruleCount = 1 ∧
    twoNamedTWithRule.rules 0 = ⟨1, 0, 2, 0⟩ ∧
    (twoNamedTWithRule.vars 1).mfCount = 0 ∧
    ¬ ((twoNamedTWithRule.rules 0).ifMF
        < (twoNamedTWithRule.vars (twoNamedTWithRule.rules 0).ifVar).mfCount) ∧
    ¬ RulesValid twoNamedTWithRule :=
  ⟨Reachable.addRule twoNamedT "T".toList "Cold".toList "F".toList "Low".toList
      twoNamedT_reachable,
    by decide, by decide, by decide, by decide, by decide⟩

theorem mem_evaluateAccesses (s : AutoFuzzy) (inputs : Nat → ℚ) (a : Access)
    (h : a ∈ evaluateAccesses s inputs) :
    ∃ i, i < s.ruleCount ∧
      (a = Access.rule i ∨ a = Access.variable (s.rules i).ifVar ∨
        a = Access.mf (s.rules i).ifVar (s.rules i).ifMF ∨
        a = Access.input (s.rules i).ifVar ∨
        a = Access.variable (s.rules i).thenVar ∨
        a = Access.mf (s.rules i).thenVar (s.rules i).thenMF) := by
  unfold evaluateAccesses at h
  obtain ⟨i, hi, ha⟩ := List.mem_flatMap.1 h
  refine ⟨i, List.mem_range.1 hi, ?_⟩
  unfold ruleAccesses at ha
  split_ifs at ha
  · simp only [List.mem_append, List.mem_cons, List.mem_singleton, List.not_mem_nil,
      or_false] at ha
    tauto
  · simp only [List.append_nil, List.mem_cons, List.mem_singleton, List.not_mem_nil,
      or_false] at ha
    tauto

/-- C16: for every engine state reachable from the freshly constructed engine by
registration and `autoOptimize` calls in which no two registered variables have the same
name, and every input vector with at least `varCount` entries (`n` entries), every array
access made by `evaluate` is in range: each rule's `ifVar` and `thenVar` index a
registered variable, its `ifMF` and `thenMF` index a registered membership function of
that variable, and `inputs` is read only at positions below `varCount`. -/
theorem evaluate_accesses_in_range (s : AutoFuzzy) (inputs : Nat → ℚ) (n : Nat)
    (h : Reachable s) (hd : NamesDistinct s) (hn : s.varCount ≤ n) :
    RulesValid s ∧ ∀ a, a ∈ evaluateAccesses s inputs → Access.InRange s n a := by
  have hv : RulesValid s := reachable_rulesValid_of_namesDistinct h hd
  obtain ⟨c1, c2, c3⟩ := reachable_withinCapacity h
  refine ⟨hv, fun a ha => ?_⟩
  obtain ⟨i, hi, hcase⟩ := mem_evaluateAccesses s inputs a ha
  obtain ⟨r1, r2, r3, r4⟩ := hv i hi
  rcases hcase with e | e | e | e | e | e <;> subst e
  · exact ⟨hi, lt_of_lt_of_le hi c3⟩
  · exact ⟨r1, lt_of_lt_of_le r1 c1⟩
  · exact ⟨r1, lt_of_lt_of_le r1 c1, r3, lt_of_lt_of_le r3 (c2 _ r1)⟩
  · exact ⟨r1, lt_of_lt_of_le r1 hn⟩
  · exact ⟨r2, lt_of_lt_of_le r2 c1⟩
  · exact ⟨r2, lt_of_lt_of_le r2 c1, r4, lt_of_lt_of_le r4 (c2 _ r2)⟩

/-- In the scenario engine (variables `Temperature` and `FanSpeed`) with an input vector
of two entries, every stored rule is valid and every read of `evaluate`, among them the
read of `inputs[0]`, is in range. -/
theorem evaluate_accesses_in_range_witness :
    NamesDistinct fanControl ∧ fanControl.varCount ≤ 2 ∧ RulesValid fanControl ∧
    Access.input 0 ∈ evaluateAccesses fanControl (inputsOf [30, 0]) ∧
    ∀ a, a ∈ evaluateAccesses fanControl (inputsOf [30, 0]) → Access.InRange fanControl 2 a :=
  have h := evaluate_accesses_in_range fanControl (inputsOf [30, 0]) 2 fanControl_reachable
    (by decide) (by decide)
  ⟨by decide, by decide, h.1,
    List.mem_flatMap.2 ⟨0, by decide, by simp [ruleAccesses]; decide⟩, h.2⟩

/-! ## Division safety -/

theorem checkedDiv_of_ne_zero (x y : ℚ) (h : y ≠ 0) : checkedDiv x y = some (x / y) := by
  rw [checkedDiv, if_neg h]

theorem calculateMembershipDivisor_pos (mf : MembershipFunction) (value d : ℚ)
    (h : calculateMembershipDivisor mf value = some d) : 0 < d := by
  unfold calculateMembershipDivisor at h
  split_ifs at h with h0 h1 h2 h3 h4 h5
  · push_neg at h1
    have e : mf.params 1 - mf.params 0 = d := Option.some.inj h
    rw [← e]; linarith
  · push_neg at h1 h2
    have e : mf.params 2 - mf.params 1 = d := Option.some.inj h
    rw [← e]; linarith
  · push_neg at h3
    have e : mf.params 1 - mf.params 0 = d := Option.some.inj h
    rw [← e]; linarith
  · push_neg at h3 h5
    have h6 : mf.params 2 < value := by
      by_contra hc
      exact h4 ⟨h5, not_lt.1 hc⟩
    have e : mf.params 3 - mf.params 2 = d := Option.some.inj h
    rw [← e]; linarith

theorem calculateMembershipChecked_eq (mf : MembershipFunction) (value : ℚ) :
    calculateMembershipChecked mf value = some (calculateMembership mf value) := by
  unfold calculateMembershipChecked calculateMembership
  split_ifs with h0 h1 h2 h3 h4 h5
  · rfl
  · push_neg at h1
    exact checkedDiv_of_ne_zero _ _ (by intro hz; linarith)
  · push_neg at h1 h2
    exact checkedDiv_of_ne_zero _ _ (by intro hz; linarith)
  · rfl
  · rfl
  · push_neg at h3
    exact checkedDiv_of_ne_zero _ _ (by intro hz; linarith)
  · push_neg at h3 h5
    have h6 : mf.params 2 < value := by
      by_contra hc
      exact h4 ⟨h5, not_lt.1 hc⟩
    exact checkedDiv_of_ne_zero _ _ (by intro hz; linarith)

theorem calculateMembershipDivisorAt_num (mf : MembershipFunction) (value : ℚ) :
    calculateMembershipDivisorAt mf (FloatValue.num value)
      = calculateMembershipDivisor mf value := by
  unfold calculateMembershipDivisorAt calculateMembershipDivisor
  simp only [FloatValue.le, FloatValue.ge, FloatValue.lt, Bool.or_eq_true, Bool.and_eq_true,
    decide_eq_true_eq]

/-- C17, as stated for every value, fails: a NaN value fails every guard of
`calculateMembership`, so the last branch is taken; its divisor is `params[2] - params[1]`
for a triangular and `params[3] - params[2]` for a trapezoidal function, which is 0 on
the scenario's `Hot(20, 40, 40)` and on the trapezoid `(0, 10, 20, 20)`. -/
theorem calculateMembership_zero_divisor_at_nan :
    calculateMembershipDivisorAt (triangular 20 40 40) FloatValue.nan = some 0 ∧
    calculateMembershipDivisorAt (trapezoidal 0 10 20 20) FloatValue.nan = some 0 := by
  constructor
  · norm_num [calculateMembershipDivisorAt, FloatValue.le, FloatValue.ge, triangular]
  · norm_num [calculateMembershipDivisorAt, FloatValue.le, FloatValue.ge, FloatValue.lt,
      trapezoidal]

/-- C17, amended: with arithmetic over exact rationals (the value and the params are
numbers, in particular the value is not NaN), `calculateMembership` never divides by
zero. For every membership function of either shape with arbitrary params (no ordering
assumed, so including `a = b`, `b = c` and `c = d`) and every such value, the division
on the branch actually taken has a non-zero divisor; hence the computation with checked
divisions always succeeds, with the value of `calculateMembership`. -/
theorem calculateMembership_never_divides_by_zero (mf : MembershipFunction) (value : ℚ) :
    calculateMembershipDivisorAt mf (FloatValue.num value) ≠ some 0 ∧
    calculateMembershipDivisor mf value ≠ some 0 ∧
    calculateMembershipChecked mf value = some (calculateMembership mf value) :=
  ⟨fun h => lt_irrefl 0 (calculateMembershipDivisor_pos mf value 0
      ((calculateMembershipDivisorAt_num mf value).symm.trans h)),
    fun h => lt_irrefl 0 (calculateMembershipDivisor_pos mf value 0 h),
    calculateMembershipChecked_eq mf value⟩

/-! ## Parameter optimizer: repair and frame -/

theorem mutateStep_fold_params_frame (rand : RandomSource) (vmin vmax : ℚ)
    (mf : MembershipFunction) (n m : Nat) :
    ∀ k, m ≤ k →
      ((List.range m).foldl (mutateStep rand vmin vmax) (mf, n)).1.params k = mf.params k := by
  induction m with
  | zero => exact fun _ _ => rfl
  | succ m ih =>
    rw [List.range_succ, List.foldl_append]
    intro k hk
    simp only [List.foldl_cons, List.foldl_nil, mutateStep]
    have hkm : k ≠ m := by omega
    rw [Function.update_noteq hkm]
    exact ih k (by omega)

theorem mutate_params_frame (rand : RandomSource) (vmin vmax : ℚ) (mf : MembershipFunction)
    (n k : Nat) (hk : paramCount mf ≤ k) :
    (mutate rand vmin vmax mf n).1.params k = mf.params k := by
  have hpc : 3 ≤ paramCount mf := by
    unfold paramCount; split_ifs <;> omega
  obtain ⟨-, -, -, -, o5⟩ := orderStep_fold 0 0 0
    ((List.range (paramCount mf)).foldl (mutateStep rand vmin vmax) (mf, n)).1
    (paramCount mf - 1) (fun k hk => absurd hk (Nat.not_lt_zero k))
  have e1 := o5 k (by omega)
  have e2 := mutateStep_fold_params_frame rand vmin vmax mf n (paramCount mf) k hk
  unfold mutate
  exact e1.trans e2

theorem optimizeMF_of_selected (rand : RandomSource) (i : Nat) (st : AutoFuzzy × Nat) (j : Nat)
    (h : (rand st.2 0 100 : ℚ) / 100 < mutationRate) :
    (optimizeMF rand i st j).1 =
      { st.1 with
        vars := Function.update st.1.vars i
          { st.1.vars i with
            mfs := Function.update (st.1.vars i).mfs j
              (mutate rand (st.1.vars i).min (st.1.vars i).max ((st.1.vars i).mfs j)
                (st.2 + 1)).1 } } := by
  rw [optimizeMF, if_pos h]

theorem optimizeMF_of_not_selected (rand : RandomSource) (i : Nat) (st : AutoFuzzy × Nat)
    (j : Nat) (h : ¬ (rand st.2 0 100 : ℚ) / 100 < mutationRate) :
    (optimizeMF rand i st j).1 = st.1 := by
  rw [optimizeMF, if_neg h]

theorem optimizeMF_other (rand : RandomSource) (i : Nat) (st : AutoFuzzy × Nat) (j a b : Nat)
    (h : (a, b) ≠ (i, j)) :
    ((optimizeMF rand i st j).1.vars a).mfs b = (st.1.vars a).mfs b := by
  by_cases hsel : (rand st.2 0 100 : ℚ) / 100 < mutationRate
  · rw [optimizeMF_of_selected rand i st j hsel]
    by_cases ha : a = i
    · subst ha
      have hb : b ≠ j := fun hb => h (by rw [hb])
      simp only [Function.update_same, Function.update_noteq hb]
    · simp only [Function.update_noteq ha]
  · rw [optimizeMF_of_not_selected rand i st j hsel]

theorem optimizeMFLog_frameKept (rand : RandomSource) (s0 : AutoFuzzy) (i : Nat)
    (st : (AutoFuzzy × Nat) × List (Nat × Nat)) (j : Nat) (h : FrameKept s0 st) :
    FrameKept s0 (optimizeMFLog rand i st j) := by
  obtain ⟨h1, h2, h3⟩ := h
  refine ⟨SameLayout.trans h1 (optimizeMF_sameLayout rand i st.1 j), ?_, ?_⟩
  · intro a b ht
    by_cases hab : (a, b) = (i, j)
    · have ea : a = i := congrArg Prod.fst hab
      have eb : b = j := congrArg Prod.snd hab
      subst ea eb
      by_cases hsel : (rand st.1.2 0 100 : ℚ) / 100 < mutationRate
      · show (((optimizeMF rand a st.1 b).1.vars a).mfs b).params 3 = _
        rw [optimizeMF_of_selected rand a st.1 b hsel]
        simp only [Function.update_same]
        have htype : ((st.1.1.vars a).mfs b).type = 0 := by
          rw [((h1.2.2.2 a).2.2.2.2.2 b).2]; exact ht
        have hpc : paramCount ((st.1.1.vars a).mfs b) ≤ 3 := by
          unfold paramCount; rw [if_pos htype]
        rw [mutate_params_frame rand _ _ _ _ 3 hpc]
        exact h2 a b ht
      · show (((optimizeMF rand a st.1 b).1.vars a).mfs b).params 3 = _
        rw [optimizeMF_of_not_selected rand a st.1 b hsel]
        exact h2 a b ht
    · show (((optimizeMF rand i st.1 j).1.vars a).mfs b).params 3 = _
      rw [optimizeMF_other rand i st.1 j a b hab]
      exact h2 a b ht
  · intro a b hnot
    by_cases hsel : (rand st.1.2 0 100 : ℚ) / 100 < mutationRate
    · have hlog : (optimizeMFLog rand i st j).2 = st.2 ++ [(i, j)] := by
        rw [optimizeMFLog]; simp only [if_pos hsel]
      rw [hlog, List.mem_append, List.mem_singleton] at hnot
      push_neg at hnot
      show (((optimizeMF rand i st.1 j).1.vars a).mfs b).params = _
      rw [optimizeMF_other rand i st.1 j a b hnot.2]
      exact h3 a b hnot.1
    · have hlog : (optimizeMFLog rand i st j).2 = st.2 := by
        rw [optimizeMFLog]; simp only [if_neg hsel]
      rw [hlog] at hnot
      show (((optimizeMF rand i st.1 j).1.vars a).mfs b).params = _
      rw [optimizeMF_of_not_selected rand i st.1 j hsel]
      exact h3 a b hnot

theorem foldl_frameKept {α : Type} (s0 : AutoFuzzy)
    (f : (AutoFuzzy × Nat) × List (Nat × Nat) → α → (AutoFuzzy × Nat) × List (Nat × Nat))
    (hf : ∀ st x, FrameKept s0 st → FrameKept s0 (f st x)) (l : List α)
    (st : (AutoFuzzy × Nat) × List (Nat × Nat)) (h : FrameKept s0 st) :
    FrameKept s0 (l.foldl f st) := by
  induction l generalizing st with
  | nil => exact h
  | cons x t ih => exact ih (f st x) (hf st x h)

theorem optimizeVarLog_frameKept (rand : RandomSource) (s0 : AutoFuzzy)
    (st : (AutoFuzzy × Nat) × List (Nat × Nat)) (i : Nat) (h : FrameKept s0 st) :
    FrameKept s0 (optimizeVarLog rand st i) :=
  foldl_frameKept s0 (optimizeMFLog rand i)
    (fun st j hst => optimizeMFLog_frameKept rand s0 i st j hst) _ st h

theorem optimizePassLog_frameKept (rand : RandomSource) (s0 : AutoFuzzy)
    (st : (AutoFuzzy × Nat) × List (Nat × Nat)) (iter : Nat) (h : FrameKept s0 st) :
    FrameKept s0 (optimizePassLog rand st iter) :=
  foldl_frameKept s0 (optimizeVarLog rand)
    (fun st i hst => optimizeVarLog_frameKept rand s0 st i hst) _ st h

theorem optimizeVarLog_fst (rand : RandomSource) (st : (AutoFuzzy × Nat) × List (Nat × Nat))
    (i : Nat) : (optimizeVarLog rand st i).1 = optimizeVar rand st.1 i := by
  unfold optimizeVarLog optimizeVar
  generalize List.range (st.1.1.vars i).mfCount = l
  induction l generalizing st with
  | nil => rfl
  | cons j t ih =>
    rw [List.foldl_cons, List.foldl_cons, ih (optimizeMFLog rand i st j)]
    rfl

theorem optimizePassLog_fst (rand : RandomSource) (st : (AutoFuzzy × Nat) × List (Nat × Nat))
    (iter : Nat) : (optimizePassLog rand st iter).1 = optimizePass rand st.1 iter := by
  unfold optimizePassLog optimizePass
  generalize List.range st.1.1.varCount = l
  induction l generalizing st with
  | nil => rfl
  | cons i t ih =>
    rw [List.foldl_cons, List.foldl_cons, ih (optimizeVarLog rand st i),
      optimizeVarLog_fst]

theorem autoOptimizeLog_fst (rand : RandomSource) (l : List Nat)
    (st : (AutoFuzzy × Nat) × List (Nat × Nat)) :
    (l.foldl (optimizePassLog rand) st).1 = l.foldl (optimizePass rand) st.1 := by
  induction l generalizing st with
  | nil => rfl
  | cons i t ih =>
    rw [List.foldl_cons, List.foldl_cons, ih (optimizePassLog rand st i),
      optimizePassLog_fst]

theorem autoOptimize_of_nonpos (s : AutoFuzzy) (iterations : Int) (rand : RandomSource)
    (h : iterations ≤ 0) : autoOptimize s iterations rand = s := by
  have e : iterations.toNat = 0 := Int.toNat_eq_zero.2 h
  rw [autoOptimize, e]
  rfl

theorem optimizeMFLog_of_not_selected (rand : RandomSource) (i j : Nat) (st : (AutoFuzzy × Nat) × List (Nat × Nat))
    (n : Nat) (hn : st.1.2 = n) (h : ¬ (rand n 0 100 : ℚ) / 100 < mutationRate) :
    optimizeMFLog rand i st j = ((st.1.1, n + 1), st.2) := by
  subst hn
  simp only [optimizeMFLog, optimizeMF, if_neg h]

/-- One iteration on the scenario engine driven by `sampleRandom` selects `Cold`, the
function 0 of variable 0, and nothing else (the draws 3, 31, 38, 45 decide). -/
theorem selections_fanControl_one : selections fanControl 1 sampleRandom = [(0, 0)] := by
  have h0 : (sampleRandom 0 0 100 : ℚ) / 100 < mutationRate := by
    norm_num [sampleRandom, mutationRate]
  have h4 : ¬ (sampleRandom 4 0 100 : ℚ) / 100 < mutationRate := by
    norm_num [sampleRandom, mutationRate]
  have h5 : ¬ (sampleRandom 5 0 100 : ℚ) / 100 < mutationRate := by
    norm_num [sampleRandom, mutationRate]
  have h6 : ¬ (sampleRandom 6 0 100 : ℚ) / 100 < mutationRate := by
    norm_num [sampleRandom, mutationRate]
  have e1 : optimizeMFLog sampleRandom 0 ((fanControl, 0), []) 0
      = (optimizeMF sampleRandom 0 (fanControl, 0) 0, [(0, 0)]) := by
    simp only [optimizeMFLog, if_pos h0, List.nil_append]
  have c1 : (optimizeMF sampleRandom 0 (fanControl, 0) 0).2 = 4 := by
    simp only [optimizeMF, if_pos h0]
    rfl
  have m1 : ((optimizeMF sampleRandom 0 (fanControl, 0) 0).1.vars 0).mfCount = 2 := by
    simp only [optimizeMF, if_pos h0]
    rfl
  have m2 : ((optimizeMF sampleRandom 0 (fanControl, 0) 0).1.vars 1).mfCount = 2 := by
    simp only [optimizeMF, if_pos h0]
    rfl
  have v2 : (optimizeMF sampleRandom 0 (fanControl, 0) 0).1.varCount = 2 := by
    simp only [optimizeMF, if_pos h0]
    rfl
  have r2 : List.range 2 = [0, 1] := rfl
  have r1 : List.range 1 = [0] := rfl
  have f2 : (fanControl.vars 0).mfCount = 2 := rfl
  have fv : fanControl.varCount = 2 := rfl
  have e2 : optimizeMFLog sampleRandom 0
      (optimizeMF sampleRandom 0 (fanControl, 0) 0, [(0, 0)]) 1
      = (((optimizeMF sampleRandom 0 (fanControl, 0) 0).1, 5), [(0, 0)]) :=
    optimizeMFLog_of_not_selected sampleRandom 0 1 (optimizeMF sampleRandom 0 (fanControl, 0) 0, [(0, 0)]) 4 c1 h4
  have e3 : optimizeMFLog sampleRandom 1
      (((optimizeMF sampleRandom 0 (fanControl, 0) 0).1, 5), [(0, 0)]) 0
      = (((optimizeMF sampleRandom 0 (fanControl, 0) 0).1, 6), [(0, 0)]) :=
    optimizeMFLog_of_not_selected sampleRandom 1 0 _ 5 rfl h5
  have e4 : optimizeMFLog sampleRandom 1
      (((optimizeMF sampleRandom 0 (fanControl, 0) 0).1, 6), [(0, 0)]) 1
      = (((optimizeMF sampleRandom 0 (fanControl, 0) 0).1, 7), [(0, 0)]) :=
    optimizeMFLog_of_not_selected sampleRandom 1 1 _ 6 rfl h6
  unfold selections
  simp only [Int.toNat_one, r1, List.foldl_cons, List.foldl_nil, optimizePassLog, fv, r2,
    optimizeVarLog, f2, e1, e2, m2, e3, e4]

/-- C18: the single forward pass of `autoOptimize` repairs any selected membership
function. For every variable with `min ≤ max` and every membership function of it that
is selected for mutation (the draw passes the test `random(100) / 100.0 < mutationRate`),
whatever its params were before and whatever offsets the random source yields,
immediately after that mutation its params (the first 3 of a triangular, the first 4 of a
trapezoidal function) all lie in `[min, max]` and are non-decreasing by index. -/
theorem mutation_repairs_selected (rand : RandomSource) (i j : Nat) (st : AutoFuzzy × Nat)
    (hmm : (st.1.vars i).min ≤ (st.1.vars i).max)
    (hsel : (rand st.2 0 100 : ℚ) / 100 < mutationRate) :
    ParamsWellFormed (st.1.vars i).min (st.1.vars i).max
      (((optimizeMF rand i st j).1.vars i).mfs j) := by
  rw [optimizeMF_of_selected rand i st j hsel]
  simp only [Function.update_same]
  exact mutate_wellFormed rand _ _ hmm _ _

/-- The function `Bad(50, -3, 7)` of the variable `X` in `[0, 10]` is not well-formed; the
first draw of `sampleRandom` selects it, and after the mutation it is. -/
theorem mutation_repairs_selected_witness :
    ¬ ParamsWellFormed 0 10 ((disordered.vars 0).mfs 0) ∧
    ParamsWellFormed 0 10 (((optimizeMF sampleRandom 0 (disordered, 0) 0).1.vars 0).mfs 0) :=
  ⟨by decide,
    mutation_repairs_selected sampleRandom 0 0 (disordered, 0) (by decide)
      (by norm_num [sampleRandom, mutationRate])⟩

/-- C19: `autoOptimize` changes nothing but membership-function params. For every engine
state, iteration count and random-source outcome, after `autoOptimize(iterations)`:
`varCount`, `ruleCount`, every rule, every variable's name, role, min, max and `mfCount`,
and every membership function's name and shape are unchanged; a triangular function's
fourth param slot is unchanged; a membership function that is never selected for
mutation keeps its params; and with `iterations ≤ 0` the whole state is unchanged. -/
theorem autoOptimize_changes_only_params (s : AutoFuzzy) (iterations : Int)
    (rand : RandomSource) :
    SameLayout s (autoOptimize s iterations rand) ∧
    (∀ a b, ((s.vars a).mfs b).type = 0 →
      (((autoOptimize s iterations rand).vars a).mfs b).params 3
        = ((s.vars a).mfs b).params 3) ∧
    (∀ a b, (a, b) ∉ selections s iterations rand →
      (((autoOptimize s iterations rand).vars a).mfs b).params
        = ((s.vars a).mfs b).params) ∧
    (iterations ≤ 0 → autoOptimize s iterations rand = s) := by
  have h0 : FrameKept s ((s, 0), []) :=
    ⟨SameLayout.refl s, fun _ _ _ => rfl, fun _ _ _ => rfl⟩
  have hk := foldl_frameKept s (optimizePassLog rand)
    (fun st i hst => optimizePassLog_frameKept rand s st i hst)
    (List.range iterations.toNat) ((s, 0), []) h0
  have e : autoOptimize s iterations rand
      = ((List.range iterations.toNat).foldl (optimizePassLog rand) ((s, 0), [])).1.1 := by
    rw [autoOptimizeLog_fst]; rfl
  rw [e]
  refine ⟨hk.1, hk.2.1, hk.2.2, ?_⟩
  intro h
  rw [← e]
  exact autoOptimize_of_nonpos s iterations rand h

/-- One iteration on the scenario engine driven by `sampleRandom` selects only `Cold`:
the function `Hot` (function 1 of variable 0) keeps its params, and the rule count stays
2; with a negative iteration count nothing changes at all. -/
theorem autoOptimize_changes_only_params_witness :
    (((autoOptimize fanControl 1 sampleRandom).vars 0).mfs 1).params
      = ((fanControl.vars 0).mfs 1).params ∧
    (autoOptimize fanControl 1 sampleRandom).ruleCount = fanControl.ruleCount ∧
    autoOptimize fanControl (-5) sampleRandom = fanControl :=
  have h := autoOptimize_changes_only_params fanControl 1 sampleRandom
  ⟨h.2.2.1 0 1 (by rw [selections_fanControl_one]; decide), h.1.2.1,
    (autoOptimize_changes_only_params fanControl (-5) sampleRandom).2.2.2 (by decide)⟩

/-! ## Name length -/

theorem take19_length (name : Name) : (name.take 19).length ≤ 19 := by
  rw [List.length_take]
  exact Nat.min_le_left _ _

theorem construct_namesBounded (mem : AutoFuzzy) : NamesBounded (construct mem) :=
  fun i hi => absurd hi (Nat.not_lt_zero i)

theorem addInput_namesBounded (s : AutoFuzzy) (name : Name) (min max : ℚ)
    (h : NamesBounded s) : NamesBounded (addInput s name min max) := by
  rcases Nat.lt_or_ge s.varCount MAX_VARS with hr | hr
  · rw [addInput_of_room s name min max hr]
    intro i hi
    by_cases hne : i = s.varCount
    · subst hne
      simp only [Function.update_same]
      exact ⟨take19_length name, fun j hj => absurd hj (Nat.not_lt_zero j)⟩
    · simp only [Function.update_noteq hne]
      have hi1 : i < s.varCount + 1 := hi
      exact h i (by omega)
  · rw [addInput_of_full s name min max hr]; exact h

theorem addOutput_namesBounded (s : AutoFuzzy) (name : Name) (min max : ℚ)
    (h : NamesBounded s) : NamesBounded (addOutput s name min max) := by
  rcases Nat.lt_or_ge s.varCount MAX_VARS with hr | hr
  · rw [addOutput_of_room s name min max hr]
    intro i hi
    by_cases hne : i = s.varCount
    · subst hne
      simp only [Function.update_same]
      exact ⟨take19_length name, fun j hj => absurd hj (Nat.not_lt_zero j)⟩
    · simp only [Function.update_noteq hne]
      have hi1 : i < s.varCount + 1 := hi
      exact h i (by omega)
  · rw [addOutput_of_full s name min max hr]; exact h

theorem mfAppended_namesBounded {s t : AutoFuzzy} {i : Nat} {name : Name} {type : Nat}
    {ps : List ℚ} (h : MFAppended s t i name type ps) (hl : name.length ≤ 19)
    (hs : NamesBounded s) : NamesBounded t := by
  obtain ⟨h1, -, -, h4, h5, -, -, -, h9, h10, h11, -⟩ := h
  intro a ha
  rw [h1] at ha
  by_cases hai : a = i
  · subst hai
    rw [h5, h9]
    refine ⟨(hs a ha).1, fun j hj => ?_⟩
    by_cases hjc : j = (s.vars a).mfCount
    · subst hjc
      rw [h11]; exact hl
    · rw [h10 j hjc]
      exact (hs a ha).2 j (by omega)
  · rw [h4 a hai]
    exact hs a ha

theorem addTriangularMF_namesBounded (s : AutoFuzzy) (varName mfName : Name) (a b c : ℚ)
    (h : NamesBounded s) : NamesBounded (addTriangularMF s varName mfName a b c) := by
  cases hv : varIndex s varName with
  | none => rw [addTriangularMF_of_none s varName mfName a b c hv]; exact h
  | some i =>
    rcases Nat.lt_or_ge (s.vars i).mfCount MAX_MEMBERSHIP_FUNCTIONS with hr | hr
    · exact mfAppended_namesBounded (addTriangularMF_appended s varName mfName a b c i hv hr)
        (take19_length mfName) h
    · rw [addTriangularMF_of_full s varName mfName a b c i hv hr]; exact h

theorem addTrapezoidalMF_namesBounded (s : AutoFuzzy) (varName mfName : Name) (a b c d : ℚ)
    (h : NamesBounded s) : NamesBounded (addTrapezoidalMF s varName mfName a b c d) := by
  cases hv : varIndex s varName with
  | none => rw [addTrapezoidalMF_of_none s varName mfName a b c d hv]; exact h
  | some i =>
    rcases Nat.lt_or_ge (s.vars i).mfCount MAX_MEMBERSHIP_FUNCTIONS with hr | hr
    · exact mfAppended_namesBounded
        (addTrapezoidalMF_appended s varName mfName a b c d i hv hr) (take19_length mfName) h
    · rw [addTrapezoidalMF_of_full s varName mfName a b c d i hv hr]; exact h

theorem addRule_namesBounded (s : AutoFuzzy) (ifVar ifMF thenVar thenMF : Name)
    (hs : NamesBounded s) : NamesBounded (addRule s ifVar ifMF thenVar thenMF) := by
  obtain ⟨h1, h2⟩ := addRule_vars s ifVar ifMF thenVar thenMF
  unfold NamesBounded
  rw [h1, h2]
  exact hs

theorem namesBounded_of_sameLayout {s t : AutoFuzzy} (h : SameLayout s t)
    (hs : NamesBounded s) : NamesBounded t := by
  obtain ⟨a1, -, -, a4⟩ := h
  intro i hi
  rw [a1] at hi
  obtain ⟨b1, -, -, -, b5, b6⟩ := a4 i
  rw [b1, b5]
  refine ⟨(hs i hi).1, fun j hj => ?_⟩
  rw [(b6 j).1]
  exact (hs i hi).2 j hj

theorem reachable_namesBounded {s : AutoFuzzy} (h : Reachable s) : NamesBounded s := by
  induction h with
  | construct mem => exact construct_namesBounded mem
  | addInput s name min max _ ih => exact addInput_namesBounded s name min max ih
  | addOutput s name min max _ ih => exact addOutput_namesBounded s name min max ih
  | addTriangularMF s v m a b c _ ih => exact addTriangularMF_namesBounded s v m a b c ih
  | addTrapezoidalMF s v m a b c d _ ih =>
    exact addTrapezoidalMF_namesBounded s v m a b c d ih
  | addRule s a b c d _ ih => exact addRule_namesBounded s a b c d ih
  | autoOptimize s it rand _ ih =>
    exact namesBounded_of_sameLayout (autoOptimize_sameLayout s it rand) ih

theorem namesBounded_longNameInert {s : AutoFuzzy} (hs : NamesBounded s) (name : Name)
    (hl : 19 < name.length) : LongNameInert s name := by
  have hvar : ∀ i, i < s.varCount → (s.vars i).name ≠ name := by
    intro i hi he
    have h1 := (hs i hi).1
    rw [he] at h1
    omega
  have hmf : ∀ (v : Name) (i : Nat), i < s.varCount → (s.vars i).name = v →
      mfIndex (s.vars i) name = none := by
    intro v i hi _
    rw [mfIndex_eq_none]
    intro j hj he
    have h1 := (hs i hi).2 j hj
    rw [he] at h1
    omega
  have hnone : varIndex s name = none := (varIndex_eq_none s name).2 hvar
  intro mfName x y z a b c d
  refine ⟨addTriangularMF_of_none s name mfName a b c hnone,
    addTrapezoidalMF_of_none s name mfName a b c d hnone, ?_, ?_, ?_, ?_⟩
  · exact addRule_of_scan_none s _ _ _ _ (Or.inl (scan_ifVarIndex_none s _ _ _ _ _ hvar))
  · exact addRule_of_scan_none s _ _ _ _
      (Or.inr (Or.inr (Or.inl (scan_ifMFIndex_none s _ _ _ _ _ (hmf x)))))
  · exact addRule_of_scan_none s _ _ _ _
      (Or.inr (Or.inl (scan_thenVarIndex_none s _ _ _ _ _ hvar)))
  · exact addRule_of_scan_none s _ _ _ _
      (Or.inr (Or.inr (Or.inr (scan_thenMFIndex_none s _ _ _ _ _ (hmf z)))))

/-- C20: stored names are at most 19 characters and lookup compares the full given name.
In every reachable engine state every registered variable name and membership-function
name has length `≤ 19`; so for every name longer than 19 characters,
`addTriangularMF` / `addTrapezoidalMF` with that variable name and `addRule` with that
name in any of its four positions leave the engine state unchanged - also when they are
called immediately after `addInput` or `addOutput` was called with that very name. -/
theorem long_names_never_resolve (s : AutoFuzzy) (name : Name) (min max : ℚ)
    (h : Reachable s) (hl : 19 < name.length) :
    NamesBounded s ∧ LongNameInert s name ∧
    LongNameInert (addInput s name min max) name ∧
    LongNameInert (addOutput s name min max) name :=
  ⟨reachable_namesBounded h, namesBounded_longNameInert (reachable_namesBounded h) name hl,
    namesBounded_longNameInert
      (reachable_namesBounded (Reachable.addInput s name min max h)) name hl,
    namesBounded_longNameInert
      (reachable_namesBounded (Reachable.addOutput s name min max h)) name hl⟩

/-- The engine `oneVariable` is produced by the public operations. -/
theorem oneVariable_reachable : Reachable oneVariable :=
  Reachable.addInput _ "X".toList 0 10 (Reachable.construct blank)

/-- After `addInput` with the 26-character name `longName` on `oneVariable`, the new
variable 1 carries the first 19 characters; `addTriangularMF` and `addRule` with the full
name change nothing, while `addTriangularMF` with the 19-character prefix does attach a
function to variable 1. -/
theorem long_names_never_resolve_witness :
    19 < longName.length ∧
    ((addInput oneVariable longName 0 1).vars 1).name = "abcdefghijklmnopqrs".toList ∧
    addTriangularMF (addInput oneVariable longName 0 1) longName "M".toList 0 1 2
      = addInput oneVariable longName 0 1 ∧
    addRule (addInput oneVariable longName 0 1) longName "M".toList "X".toList "M".toList
      = addInput oneVariable longName 0 1 ∧
    ((addTriangularMF (addInput oneVariable longName 0 1) "abcdefghijklmnopqrs".toList
      "M".toList 0 1 2).vars 1).mfCount = 1 :=
  have h := (long_names_never_resolve oneVariable longName 0 1 oneVariable_reachable
    (by decide)).2.2.1 "M".toList "M".toList "X".toList "M".toList 0 1 2 3
  ⟨by decide, by decide, h.1, h.2.2.1, by decide⟩

end AutoFuzzy
